import Mathlib

/-!
# Verification of the wait-page log-to-stage-state derivation engine

Shallow embedding of `scripts/comfy_wait_page.py` and
`scripts/ai_toolkit_wait_page.py`: the log tail reader, the stage matcher
(`compute_stage_states`), the backup item progress tracker
(`_apply_backup_progress`), the snapshot-manifest cache and
`build_backup_state`, together with theorems about the properties claimed
for them.

Python strings are embedded as Lean `String`/`List Char`; regular
expression searching (`re.search` with `re.I`) is embedded by hand-written
recognizer functions implementing the specific patterns of the source,
applied to single log lines (the program only ever matches lines produced
by `str.splitlines`, which contain no newline, so the `.`-excludes-newline
rule of the `re` module is not modelled separately).  Python `None` becomes
`Option.none`; Python truthiness on the relevant values (`or` applied to
`int` indexes, possibly-empty strings) is modelled by dedicated functions.
-/

/-- Whitespace as stripped by `str.strip()` and matched by `\s` on `str`
patterns: Python's Unicode whitespace set (the code points for which
`str.isspace()` holds). -/
def pyIsSpace (c : Char) : Bool :=
  c = ' ' || c = '\t' || c = '\n' || c = '\r' || c = '\x0b' || c = '\x0c' ||
    c = '\x1c' || c = '\x1d' || c = '\x1e' || c = '\x1f' || c = '\x85' ||
    c = '\xa0' || c = '\u1680' || (0x2000 ≤ c.toNat && c.toNat ≤ 0x200a) ||
    c = '\u2028' || c = '\u2029' || c = '\u202f' || c = '\u205f' || c = '\u3000'

/-- Drop the maximal run of characters satisfying `p` from the right end of
a list: `str.rstrip` on a character list. -/
def dropRightWhileL (p : Char → Bool) : List Char → List Char
  | [] => []
  | a :: l =>
    match dropRightWhileL p l with
    | [] => if p a then [] else [a]
    | b :: m => a :: b :: m

/-- Python `str.strip()` (with the ASCII whitespace set) on a character
list. -/
def pyStripL (l : List Char) : List Char :=
  dropRightWhileL pyIsSpace (l.dropWhile pyIsSpace)

/-- Python `str.endswith(suf)` on character lists. -/
def endsL (suf l : List Char) : Bool :=
  List.isSuffixOf suf l

/-- `_normalize_repo` of `comfy_wait_page.py` on a character list:
`strip()`, drop a trailing `.git`, then `rstrip("/")`. -/
def normalizeRepoL (l : List Char) : List Char :=
  let cleaned := pyStripL l
  let cleaned := if endsL ".git".data cleaned then cleaned.take (cleaned.length - 4) else cleaned
  dropRightWhileL (fun c => c = '/') cleaned

/-- `_normalize_repo(repo_url)` from `comfy_wait_page.py`. -/
def _normalize_repo (s : String) : String :=
  String.mk (normalizeRepoL s.data)

/-- Python `str.strip()` on a `String`. -/
def pyStrip (s : String) : String :=
  String.mk (pyStripL s.data)

/-- `_repo_label(repo_url)` from `comfy_wait_page.py`: `strip()`,
`rstrip("/")`, drop a trailing `.git`, then the final `/`-separated
segment. -/
def _repo_label (s : String) : String :=
  let cleaned := dropRightWhileL (fun c => c = '/') (pyStripL s.data)
  let cleaned := if endsL ".git".data cleaned then cleaned.take (cleaned.length - 4) else cleaned
  if cleaned.contains '/' then
    String.mk (((String.mk cleaned).splitOn "/").getLastD (String.mk cleaned) |>.data)
  else String.mk cleaned

section NormalizeRepoLemmas

theorem dropRightWhileL_head? (p : Char → Bool) (l : List Char) :
    (dropRightWhileL p l).head? = none ∨ (dropRightWhileL p l).head? = l.head? := by
  cases l with
  | nil => left; rfl
  | cons a l =>
      simp only [dropRightWhileL]
      cases dropRightWhileL p l with
      | nil =>
          by_cases h : p a = true
          · simp [h]
          · simp [h]
      | cons b m => right; rfl

theorem dropRightWhileL_getLast? (p : Char → Bool) (l : List Char) (c : Char)
    (h : (dropRightWhileL p l).getLast? = some c) : p c = false := by
  induction l with
  | nil => simp [dropRightWhileL] at h
  | cons a l ih =>
      rw [dropRightWhileL] at h
      rcases hdl : dropRightWhileL p l with _ | ⟨b, m⟩
      · rw [hdl] at h
        by_cases hpa : p a = true
        · rw [if_pos hpa] at h
          simp at h
        · rw [if_neg hpa] at h
          simp at h
          subst h
          simpa using hpa
      · rw [hdl] at h
        rw [List.getLast?_cons_cons] at h
        apply ih
        rw [hdl]
        exact h

theorem dropRightWhileL_eq_self (p : Char → Bool) (l : List Char)
    (h : ∀ c, l.getLast? = some c → p c = false) : dropRightWhileL p l = l := by
  induction l with
  | nil => rfl
  | cons a l ih =>
      simp only [dropRightWhileL]
      cases l with
      | nil =>
          have := h a (by simp)
          simp [dropRightWhileL, this]
      | cons b m =>
          have : dropRightWhileL p (b :: m) = b :: m := by
            apply ih
            intro c hc
            apply h
            rw [List.getLast?_cons_cons]
            exact hc
          rw [this]

theorem head?_dropWhile_not (p : Char → Bool) (l : List Char) (c : Char)
    (h : (l.dropWhile p).head? = some c) : p c = false := by
  induction l with
  | nil => simp [List.dropWhile] at h
  | cons a l ih =>
      by_cases hpa : p a = true
      · rw [List.dropWhile_cons_of_pos hpa] at h
        exact ih h
      · rw [List.dropWhile_cons_of_neg hpa] at h
        simp at h
        subst h
        simpa using hpa

theorem dropWhile_eq_self (p : Char → Bool) (l : List Char)
    (h : ∀ c, l.head? = some c → p c = false) : l.dropWhile p = l := by
  cases l with
  | nil => rfl
  | cons a l =>
      have := h a rfl
      simp [List.dropWhile, this]

theorem head?_take (n : Nat) (l : List Char) (c : Char)
    (h : (l.take n).head? = some c) : l.head? = some c := by
  cases l with
  | nil => simp at h
  | cons a l =>
      cases n with
      | zero => simp at h
      | succ n => simpa using h

/-- The output of `normalizeRepoL` never starts with whitespace. -/
theorem normalizeRepoL_head_not_space (l : List Char) (c : Char)
    (h : (normalizeRepoL l).head? = some c) : pyIsSpace c = false := by
  unfold normalizeRepoL at h
  rcases dropRightWhileL_head? (fun c => c = '/') _ with h1 | h1
  · rw [h1] at h; exact absurd h (by simp)
  · rw [h1] at h
    revert h
    by_cases hgit : endsL ".git".data (pyStripL l) = true
    · simp only [hgit, if_pos]
      intro h
      have h2 := head?_take _ _ _ h
      unfold pyStripL at h2
      rcases dropRightWhileL_head? pyIsSpace _ with h3 | h3
      · rw [h3] at h2; exact absurd h2 (by simp)
      · rw [h3] at h2
        exact head?_dropWhile_not _ _ _ h2
    · simp only [hgit, if_neg, Bool.false_eq_true, not_false_iff]
      intro h
      unfold pyStripL at h
      rcases dropRightWhileL_head? pyIsSpace _ with h3 | h3
      · rw [h3] at h; exact absurd h (by simp)
      · rw [h3] at h
        exact head?_dropWhile_not _ _ _ h

/-- The output of `normalizeRepoL` never ends with `/`. -/
theorem normalizeRepoL_getLast_not_slash (l : List Char) (c : Char)
    (h : (normalizeRepoL l).getLast? = some c) : (c = '/') = False := by
  unfold normalizeRepoL at h
  have := dropRightWhileL_getLast? (fun c => c = '/') _ _ h
  simp at this
  simp [this]

end NormalizeRepoLemmas

/-- C10, counterexample: `_normalize_repo` is not idempotent.  On the
input `"a.git/"` the first pass only strips the trailing slash (the string
does not end in `.git` while the slash is still present), and the second
pass then strips the newly exposed `.git` suffix; on `"a\x1f.git"` the
first pass exposes a trailing whitespace character (`"\x1f"` is stripped
by `str.strip()`) that the second pass removes. -/
theorem normalize_repo_not_idem :
    (_normalize_repo (_normalize_repo "a.git/") ≠ _normalize_repo "a.git/") ∧
    _normalize_repo "a.git/" = "a.git" ∧ _normalize_repo "a.git" = "a" ∧
    _normalize_repo "a\x1f.git" = "a\x1f" ∧ _normalize_repo "a\x1f" = "a" := by
  refine ⟨by decide, by decide, by decide, by decide, by decide⟩

/-- C10, amended: `_normalize_repo` is idempotent on every input whose
normalized form neither ends with `.git` nor ends with a whitespace
character.  (A trailing `/` re-exposes a `.git` suffix, and stripping
`.git` can expose trailing whitespace; these are the only obstructions.) -/
theorem normalize_repo_idem (s : String)
    (h1 : endsL ".git".data (_normalize_repo s).data = false)
    (h2 : Option.all (fun c => !pyIsSpace c) (_normalize_repo s).data.getLast? = true) :
    _normalize_repo (_normalize_repo s) = _normalize_repo s := by
  have key : ∀ (l : List Char),
      endsL ".git".data (normalizeRepoL l) = false →
      (∀ c, (normalizeRepoL l).getLast? = some c → pyIsSpace c = false) →
      normalizeRepoL (normalizeRepoL l) = normalizeRepoL l := by
    intro l k1 k2
    have hlast : ∀ c : Char, (normalizeRepoL l).getLast? = some c →
        (fun c => decide (c = '/')) c = false := fun c hc =>
      dropRightWhileL_getLast? _ _ c hc
    have hstrip : pyStripL (normalizeRepoL l) = normalizeRepoL l := by
      unfold pyStripL
      rw [dropWhile_eq_self pyIsSpace _ (fun c hc => normalizeRepoL_head_not_space l c hc)]
      exact dropRightWhileL_eq_self pyIsSpace _ k2
    have step1 : normalizeRepoL (normalizeRepoL l) =
        dropRightWhileL (fun c => c = '/')
          (if endsL ".git".data (pyStripL (normalizeRepoL l)) = true then
            (pyStripL (normalizeRepoL l)).take ((pyStripL (normalizeRepoL l)).length - 4)
          else pyStripL (normalizeRepoL l)) := rfl
    rw [step1, hstrip, k1]
    simp only [Bool.false_eq_true, if_false]
    exact dropRightWhileL_eq_self _ _ hlast
  have h2' : ∀ c, (normalizeRepoL s.data).getLast? = some c → pyIsSpace c = false := by
    intro c hc
    have : (_normalize_repo s).data.getLast? = some c := hc
    rw [this] at h2
    simpa using h2
  show String.mk (normalizeRepoL (String.mk (normalizeRepoL s.data)).data) =
    String.mk (normalizeRepoL s.data)
  exact congrArg String.mk (key s.data h1 h2')

/-- Witness for the amended C10 at a realistic repository URL. -/
theorem normalize_repo_idem_witness :
    endsL ".git".data (_normalize_repo "https://github.com/u/repo.git").data = false ∧
    Option.all (fun c => !pyIsSpace c)
      (_normalize_repo "https://github.com/u/repo.git").data.getLast? = true ∧
    _normalize_repo (_normalize_repo "https://github.com/u/repo.git") =
      _normalize_repo "https://github.com/u/repo.git" :=
  ⟨by decide, by decide, normalize_repo_idem _ (by decide) (by decide)⟩

/-! ## Stage matcher data model

`ENV_INFO` is an environment-derived module constant in the source; it is
embedded as an explicit `EnvInfo` parameter.  `backup_repo` is `none` when
the `COMFYUI_BACKUP` variable is unset or blank (the source stores `None`
in that case). -/

structure EnvInfo where
  backup_repo : Option String
  restore_enabled : Bool
  hf_token : Bool
  civitai_token : Bool

/-- One entry of the backup snapshot manifest, as built by
`_load_backup_nodes` (a Python dict with keys `key`, `name`, `source`, and
optionally `repo` / `version` / `status`; an absent `status` key is
`none`). -/
structure BackupNode where
  key : String
  name : String
  source : String
  repo : Option String := none
  version : Option String := none
  status : Option String := none
deriving DecidableEq

/-- The dict returned by `build_backup_state`. -/
structure BackupState where
  enabled : Bool
  repo : Option String
  nodes : List BackupNode
  has_manifest : Bool
  message : String
deriving DecidableEq

/-- One stage definition of `STAGE_DEFS` / `AITK_STAGE_DEFS`: patterns are
embedded as boolean line recognizers (`re.search` of the compiled pattern),
`detail_from_line` as an optional pure function of (line, current detail),
and `detail_factory` (only used by the `backup-nodes` stage) as an optional
pure function of the environment and backup state. -/
structure StageDef where
  id : String
  label : String
  detail : Option String := none
  detail_factory : Option (EnvInfo → BackupState → String) := none
  patterns : List (String → Bool)
  detail_from_line : Option (String → String → String) := none

/-- One entry of the stage list built by `compute_stage_states` in
`comfy_wait_page.py`. -/
structure Stage where
  id : String
  label : String
  detail : String
  status : String
  skipped : Bool
deriving DecidableEq

/-- One entry of the stage list built by `compute_stage_states` in
`ai_toolkit_wait_page.py` (no `skipped` key there). -/
structure AStage where
  id : String
  label : String
  detail : String
  status : String
deriving DecidableEq

/-- The skip-id set of `compute_stage_states`: the two backup stages are
skipped when the restore feature is disabled. -/
def skipIdsOf (bs : BackupState) : List String :=
  if bs.enabled then [] else ["backup-manager", "backup-nodes"]

/-- Initial stage record for one definition (the first loop of
`compute_stage_states`): detail from the static default or the detail
factory, status `pending`, overridden to `done` for skipped stages. -/
def initStage (env : EnvInfo) (bs : BackupState) (skipIds : List String)
    (d : StageDef) : Stage :=
  let base : String :=
    match d.detail_factory with
    | some f => f env bs
    | none => d.detail.getD ""
  { id := d.id
    label := d.label
    detail := base
    status := if skipIds.contains d.id then "done" else "pending"
    skipped := skipIds.contains d.id }

/-- `any(pattern.search(line) for pattern in definition["patterns"])`. -/
def lineMatches (d : StageDef) (line : String) : Bool :=
  d.patterns.any (fun p => p line)

/-- The inner loop of the line scan: the index of the first definition that
is not skipped and whose pattern set matches the line (`break` on first
match; skipped stages are passed over with `continue`, their patterns are
not consulted). -/
def findMatchIdx (skipIds : List String) (line : String) :
    List StageDef → Option Nat
  | [] => none
  | d :: rest =>
    if !skipIds.contains d.id && lineMatches d line then some 0
    else (findMatchIdx skipIds line rest).map (· + 1)

/-- Detail update applied when definition `i` matched `line`: feed the line
and the stage's current detail to `detail_from_line` and keep a non-empty
result (`if new_detail:`). -/
def updDetail (defs : List StageDef) (i : Nat) (line : String)
    (stages : List Stage) : List Stage :=
  match defs.get? i with
  | some d =>
    match d.detail_from_line with
    | some fn =>
      match stages.get? i with
      | some st =>
        let nd := fn line st.detail
        if nd ≠ "" then stages.set i { st with detail := nd } else stages
      | none => stages
    | none => stages
  | none => stages

/-- One iteration of the outer line scan of `compute_stage_states`
(`comfy_wait_page.py`): state is the current index and the stage list. -/
def scanLine (defs : List StageDef) (skipIds : List String)
    (st : Option Nat × List Stage) (line : String) : Option Nat × List Stage :=
  match findMatchIdx skipIds line defs with
  | some i => (some i, updDetail defs i line st.2)
  | none => st

/-- The cold-start branch of `compute_stage_states`: mark the first
non-skipped stage active. -/
def markFirstActive : List Stage → List Stage
  | [] => []
  | st :: rest =>
    if st.skipped then st :: markFirstActive rest
    else { st with status := "active" } :: rest

/-- The final status assignment of `compute_stage_states` when a line
matched: stages before the current index are done, the current one active,
later ones pending; skipped stages are left untouched. -/
def finalizeStages (c : Nat) : Nat → List Stage → List Stage
  | _, [] => []
  | i, st :: rest =>
    (if st.skipped then st
     else { st with
              status := if i < c then "done" else if i = c then "active" else "pending" })
      :: finalizeStages c (i + 1) rest

/-- `compute_stage_states(lines, backup_state)` from `comfy_wait_page.py`.
The module globals `STAGE_DEFS` and `ENV_INFO` are passed explicitly. -/
def compute_stage_states (env : EnvInfo) (defs : List StageDef)
    (lines : List String) (bs : BackupState) : List Stage :=
  let skipIds := skipIdsOf bs
  let stages0 := defs.map (initStage env bs skipIds)
  let r := lines.foldl (scanLine defs skipIds) (none, stages0)
  match r.1 with
  | none => markFirstActive r.2
  | some c => finalizeStages c 0 r.2

/-- Detail update of the `ai_toolkit_wait_page.py` scan. -/
def aitkUpdDetail (defs : List StageDef) (i : Nat) (line : String)
    (stages : List AStage) : List AStage :=
  match defs.get? i with
  | some d =>
    match d.detail_from_line with
    | some fn =>
      match stages.get? i with
      | some st =>
        let nd := fn line st.detail
        if nd ≠ "" then stages.set i { st with detail := nd } else stages
      | none => stages
    | none => stages
  | none => stages

/-- One iteration of the line scan of `compute_stage_states`
(`ai_toolkit_wait_page.py`); there is no skip concept there, so the inner
loop is `findMatchIdx` with an empty skip set. -/
def aitkScanLine (defs : List StageDef) (st : Option Nat × List AStage)
    (line : String) : Option Nat × List AStage :=
  match findMatchIdx [] line defs with
  | some i => (some i, aitkUpdDetail defs i line st.2)
  | none => st

/-- Final status assignment of the ai-toolkit `compute_stage_states`. -/
def aitkFinalize (c : Nat) : Nat → List AStage → List AStage
  | _, [] => []
  | i, st :: rest =>
    { st with
        status := if i < c then "done" else if i = c then "active" else "pending" }
      :: aitkFinalize c (i + 1) rest

/-- `compute_stage_states(lines)` from `ai_toolkit_wait_page.py`, with the
module global `AITK_STAGE_DEFS` passed explicitly. -/
def aitk_compute_stage_states (defs : List StageDef) (lines : List String) :
    List AStage :=
  let stages0 := defs.map (fun d =>
    { id := d.id, label := d.label, detail := d.detail.getD "", status := "pending" : AStage })
  let r := lines.foldl (aitkScanLine defs) ((none : Option Nat), stages0)
  match r.1 with
  | none =>
    match r.2 with
    | [] => []
    | s :: rest => { s with status := "active" } :: rest
  | some c => aitkFinalize c 0 r.2

/-! ## Pattern recognizers

Hand-written implementations of the specific `re` patterns compiled by the
two source files, with `re.search` leftmost-match semantics (and, for the
one pattern whose greedy `.*` matters, rightmost backtracking). -/

/-- Case-sensitive literal match at the head; returns the remainder. -/
def matchLit : List Char → List Char → Option (List Char)
  | [], cs => some cs
  | _ :: _, [] => none
  | l :: ls, c :: cs => if l = c then matchLit ls cs else none

/-- Case-insensitive (`re.I`, ASCII) literal match at the head. -/
def matchLitCI : List Char → List Char → Option (List Char)
  | [], cs => some cs
  | _ :: _, [] => none
  | l :: ls, c :: cs => if l.toLower = c.toLower then matchLitCI ls cs else none

/-- `re.search` as a boolean: does `f` accept at some position? -/
def searchPred (f : List Char → Bool) : List Char → Bool
  | [] => f []
  | c :: rest => f (c :: rest) || searchPred f rest

/-- `re.search` with a capture: first (leftmost) position where `f`
matches. -/
def searchCapture (f : List Char → Option (List Char)) :
    List Char → Option (List Char)
  | [] => f []
  | c :: rest =>
    match f (c :: rest) with
    | some r => some r
    | none => searchCapture f rest

/-- Greedy (rightmost-first) scan, used for the `.*` of the bulk-failure
pattern. -/
def searchRightCapture (f : List Char → Option (List Char)) :
    List Char → Option (List Char)
  | [] => f []
  | c :: rest =>
    match searchRightCapture f rest with
    | some r => some r
    | none => f (c :: rest)

/-- `\s+` followed by a token that cannot start with whitespace: consume
the maximal whitespace run (at least one character). -/
def ws1 (cs : List Char) : Option (List Char) :=
  if cs.head?.any pyIsSpace then some (cs.dropWhile pyIsSpace) else none

/-- The character class `[A-Za-z0-9._-]` of the restore patterns. -/
def alnumKeyChar (c : Char) : Bool :=
  c.isAlpha || c.isDigit || c = '.' || c = '_' || c = '-'

/-- `\s+(.+)` with both quantifiers greedy: maximal whitespace run leaving
at least one character for the capture. -/
def wsPlusDotCapture (cs : List Char) : Option (List Char) :=
  if cs.head?.any pyIsSpace then
    let m := (cs.takeWhile pyIsSpace).length
    let rest := cs.drop m
    if rest.isEmpty then
      if 2 ≤ m then some (cs.drop (m - 1)) else none
    else some rest
  else none

/-- `RESTORE_CLONE_RE` = `\[restore\]\s+cloning\s+(.+)` at one position. -/
def cloneAt (cs : List Char) : Option (List Char) := do
  let r1 ← matchLitCI "[restore]".data cs
  let r2 ← ws1 r1
  let r3 ← matchLitCI "cloning".data r2
  wsPlusDotCapture r3

/-- `RESTORE_CNR_RE` = `\[restore\]\s+cnr install\s+([A-Za-z0-9._-]+)` at
one position. -/
def cnrAt (cs : List Char) : Option (List Char) := do
  let r1 ← matchLitCI "[restore]".data cs
  let r2 ← ws1 r1
  let r3 ← matchLitCI "cnr install".data r2
  let r4 ← ws1 r3
  let cap := r4.takeWhile alnumKeyChar
  if cap.isEmpty then none else some cap

/-- `RESTORE_SKIP_RE` = `\[restore\]\s+([A-Za-z0-9._-]+)\s+already present`
at one position. -/
def skipAt (cs : List Char) : Option (List Char) := do
  let r1 ← matchLitCI "[restore]".data cs
  let r2 ← ws1 r1
  let cap := r2.takeWhile alnumKeyChar
  if cap.isEmpty then none
  else do
    let r3 := r2.drop cap.length
    let r4 ← ws1 r3
    let _ ← matchLitCI "already present".data r4
    some cap

/-- `RESTORE_ERR_RE` = `\[restore]\[err[^\]]*\]\s*([^\s]+)` at one
position. -/
def errAt (cs : List Char) : Option (List Char) := do
  let r1 ← matchLitCI "[restore][err".data cs
  let r2 := r1.dropWhile (fun c => !(c = ']'))
  match r2 with
  | ']' :: r3 =>
    let r4 := r3.dropWhile pyIsSpace
    let cap := r4.takeWhile (fun c => !pyIsSpace c)
    if cap.isEmpty then none else some cap
  | _ => none

/-- `RESTORE_DONE_RE` = `\[restore\]\s+nodes\s+&\s+settings\s+done` at one
position. -/
def doneAt (cs : List Char) : Bool :=
  (do
    let r1 ← matchLitCI "[restore]".data cs
    let r2 ← ws1 r1
    let r3 ← matchLitCI "nodes".data r2
    let r4 ← ws1 r3
    let r5 ← matchLitCI "&".data r4
    let r6 ← ws1 r5
    let r7 ← matchLitCI "settings".data r6
    let r8 ← ws1 r7
    let _ ← matchLitCI "done".data r8
    some ()).isSome

/-- The `failed:\s*\[(.+)\]` tail of `RESTORE_FAIL_LIST_RE` at one
position; the greedy `(.+)` captures up to the last `]`. -/
def failTailAt (cs : List Char) : Option (List Char) := do
  let r1 ← matchLitCI "failed:".data cs
  let r2 := r1.dropWhile pyIsSpace
  match r2 with
  | '[' :: r3 =>
    match r3.reverse.findIdx? (fun c => c = ']') with
    | some k =>
      let j := r3.length - 1 - k
      if 1 ≤ j then some (r3.take j) else none
    | none => none
  | _ => none

/-- `RESTORE_FAIL_LIST_RE` = `\[restore]\[warn].*failed:\s*\[(.+)\]` at one
position (the greedy `.*` prefers the rightmost `failed:`). -/
def failListAt (cs : List Char) : Option (List Char) := do
  let r1 ← matchLitCI "[restore][warn]".data cs
  searchRightCapture failTailAt r1

/-- `RESTORE_CLONE_RE.search(line)` returning group 1. -/
def RESTORE_CLONE_search (line : String) : Option String :=
  (searchCapture cloneAt line.data).map String.mk

/-- `RESTORE_CNR_RE.search(line)` returning group 1. -/
def RESTORE_CNR_search (line : String) : Option String :=
  (searchCapture cnrAt line.data).map String.mk

/-- `RESTORE_SKIP_RE.search(line)` returning group 1. -/
def RESTORE_SKIP_search (line : String) : Option String :=
  (searchCapture skipAt line.data).map String.mk

/-- `RESTORE_ERR_RE.search(line)` returning group 1. -/
def RESTORE_ERR_search (line : String) : Option String :=
  (searchCapture errAt line.data).map String.mk

/-- `RESTORE_DONE_RE.search(line)` as a boolean. -/
def RESTORE_DONE_search (line : String) : Bool :=
  searchPred doneAt line.data

/-- `RESTORE_FAIL_LIST_RE.search(line)` returning group 1. -/
def RESTORE_FAIL_LIST_search (line : String) : Option String :=
  (searchCapture failListAt line.data).map String.mk

/-- First entry of `NODE_PROGRESS_RE`:
`\[nodes\]\s+refreshing\s+([A-Za-z0-9._-]+)` at one position. -/
def nodesRefreshAt (cs : List Char) : Option (List Char) := do
  let r1 ← matchLitCI "[nodes]".data cs
  let r2 ← ws1 r1
  let r3 ← matchLitCI "refreshing".data r2
  let r4 ← ws1 r3
  let cap := r4.takeWhile alnumKeyChar
  if cap.isEmpty then none else some cap

/-- Second entry of `NODE_PROGRESS_RE`:
`(?:Updating|Installing)\s+([A-Za-z0-9._-]+)` at one position. -/
def updInstAt (cs : List Char) : Option (List Char) := do
  let r1 ←
    match matchLitCI "updating".data cs with
    | some r => some r
    | none => matchLitCI "installing".data cs
  let r2 ← ws1 r1
  let cap := r2.takeWhile alnumKeyChar
  if cap.isEmpty then none else some cap

/-- Third entry of `NODE_PROGRESS_RE`:
`\[manager][^\]]*\]\s*([A-Za-z0-9._-]+)` at one position. -/
def managerAt (cs : List Char) : Option (List Char) := do
  let r1 ← matchLitCI "[manager]".data cs
  let r2 := r1.dropWhile (fun c => !(c = ']'))
  match r2 with
  | ']' :: r3 =>
    let r4 := r3.dropWhile pyIsSpace
    let cap := r4.takeWhile alnumKeyChar
    if cap.isEmpty then none else some cap
  | _ => none

/-- Python `str.lower()` (ASCII). -/
def pyLower (s : String) : String :=
  String.mk (s.data.map Char.toLower)

/-- Python `sub in hay` (case-sensitive substring test). -/
def strContains (hay sub : String) : Bool :=
  searchPred (fun cs => (matchLit sub.data cs).isSome) hay.data

/-- `_update_backup_detail(line, current)` from `comfy_wait_page.py`. -/
def _update_backup_detail (line current : String) : String :=
  match RESTORE_CLONE_search line with
  | some g => "Cloning " ++ _repo_label g
  | none =>
    match RESTORE_CNR_search line with
    | some g => "Installing " ++ g ++ " from snapshot"
    | none => current

/-- `_update_custom_detail(line, current)` from `comfy_wait_page.py`: first
matching `NODE_PROGRESS_RE` entry wins; an `http…` capture is shortened via
`_repo_label`. -/
def _update_custom_detail (line current : String) : String :=
  let fromName (g : List Char) : String :=
    let name := String.mk g
    let name := if (pyLower name).startsWith "http" then _repo_label name else name
    "Updating " ++ name
  match searchCapture nodesRefreshAt line.data with
  | some g => fromName g
  | none =>
    match searchCapture updInstAt line.data with
    | some g => fromName g
    | none =>
      match searchCapture managerAt line.data with
      | some g => fromName g
      | none => current

/-- `_backup_detail(_, backup_state)` from `comfy_wait_page.py` (reads the
`ENV_INFO` module global, passed here explicitly). -/
def _backup_detail (env : EnvInfo) (bs : BackupState) : String :=
  match env.backup_repo with
  | none => "Backup is not set"
  | some repo =>
    if repo = "" then "Backup is not set"
    else if !env.restore_enabled then
      "Backup " ++ repo ++ " configured but RESTORE_BACKUP=0"
    else
      let total := bs.nodes.length
      if total ≠ 0 then
        "Restoring " ++ toString total ++ " custom nodes from " ++ repo
      else "Restoring backup from " ++ repo

/-- `re.search` of a plain case-insensitive literal pattern. -/
def reSearchCI (lit : String) (line : String) : Bool :=
  searchPred (fun cs => (matchLitCI lit.data cs).isSome) line.data

/-- `re.search` of a pattern of the shape `STAGE:\s*<literal>`. -/
def reStage (sub : String) (line : String) : Bool :=
  searchPred (fun cs =>
    match matchLitCI "STAGE:".data cs with
    | some r => (matchLitCI sub.data (r.dropWhile pyIsSpace)).isSome
    | none => false) line.data

/-- `STAGE_DEFS` from `comfy_wait_page.py`. -/
def STAGE_DEFS : List StageDef := [
  { id := "bootstrap", label := "GPU & workspace",
    detail := some "Checking CUDA drivers and preparing /workspace",
    patterns := [reStage "Checking CUDA", reSearchCI "Persisting ComfyUI",
                 reSearchCI "ComfyUI already present"] },
  { id := "venv", label := "Python environment",
    detail := some "Creating venv and upgrading pip",
    patterns := [reSearchCI "Creating venv", reSearchCI "VIRTUAL_ENV:"] },
  { id := "wheels", label := "Extra wheels",
    detail := some "Installing sageattention",
    patterns := [reStage "Installing sageattention"] },
  { id := "backup-manager", label := "ComfyUI manager",
    detail := some "Fetching ComfyUI manager metadata (first boot can take up to 2 minutes while registry downloads)",
    patterns := [reStage "Preparing ComfyUI Manager"] },
  { id := "backup-nodes", label := "Backup restore",
    detail_factory := some _backup_detail,
    patterns := [reStage "Installing nodes from backup", reStage "Restoring backup"],
    detail_from_line := some _update_backup_detail },
  { id := "core", label := "ComfyUI core",
    detail := some "Updating base repo and Python dependencies",
    patterns := [reStage "Updating ComfyUI core"] },
  { id := "custom", label := "Custom nodes",
    detail := some "Updating registered nodes",
    patterns := [reStage "Updating custom nodes"],
    detail_from_line := some _update_custom_detail },
  { id := "launch", label := "Launch",
    detail := some "Starting ComfyUI on :8188",
    patterns := [reStage "Starting ComfyUI"] }
]

/-- `_detail_repo(line, current)` from `ai_toolkit_wait_page.py`. -/
def _detail_repo (line current : String) : String :=
  if strContains (pyLower line) "cloning" then "Cloning fresh repo"
  else if strContains (pyLower line) "updating repo" then "Updating existing repo"
  else current

/-- `_detail_ui(line, current)` from `ai_toolkit_wait_page.py`. -/
def _detail_ui (line current : String) : String :=
  if strContains (pyLower line) "installing ui dependencies" then "Installing npm dependencies"
  else if strContains (pyLower line) "building ui" then "Building UI bundle"
  else if strContains (pyLower line) "update_db" then "Updating database schema"
  else current

/-- `re.search` of a pattern of the shape `\[ai-toolkit].*<literal>`. -/
def reAitk (sub : String) (line : String) : Bool :=
  searchPred (fun cs =>
    match matchLitCI "[ai-toolkit]".data cs with
    | some r => searchPred (fun cs2 => (matchLitCI sub.data cs2).isSome) r
    | none => false) line.data

/-- `AITK_STAGE_DEFS` from `ai_toolkit_wait_page.py`. -/
def AITK_STAGE_DEFS : List StageDef := [
  { id := "repo", label := "Repository",
    detail := some "Cloning ai-toolkit source",
    patterns := [reAitk "cloning repo", reAitk "updating repo"],
    detail_from_line := some _detail_repo },
  { id := "venv", label := "Python environment",
    detail := some "Creating virtualenv and upgrading pip",
    patterns := [reAitk "creating venv", reSearchCI "pip install --upgrade pip"] },
  { id := "deps", label := "Python deps",
    detail := some "Installing requirements",
    patterns := [reAitk "installing requirements"] },
  { id := "ui-build", label := "UI build",
    detail := some "Preparing AI Toolkit UI",
    patterns := [reSearchCI "installing UI dependencies", reSearchCI "npm run build",
                 reSearchCI "npm run update_db"],
    detail_from_line := some _detail_ui },
  { id := "start", label := "UI startup",
    detail := some "Starting ai-toolkit on :8675",
    patterns := [reAitk "starting UI"] }
]

/-! ## Stage matcher lemmas -/

/-- The current-index component of the scan: per line a match overwrites
the running index, a non-matching line leaves it. -/
def lastMatchStep (defs : List StageDef) (skips : List String)
    (a : Option Nat) (line : String) : Option Nat :=
  match findMatchIdx skips line defs with
  | some i => some i
  | none => a

theorem scan_fst (defs : List StageDef) (skips : List String) :
    ∀ (lines : List String) (c : Option Nat) (sts : List Stage),
      (lines.foldl (scanLine defs skips) (c, sts)).1 =
        lines.foldl (lastMatchStep defs skips) c
  | [], _, _ => rfl
  | l :: lines, c, sts => by
      simp only [List.foldl_cons]
      cases h : findMatchIdx skips l defs with
      | some i =>
          have hs : scanLine defs skips (c, sts) l = (some i, updDetail defs i l sts) := by
            simp [scanLine, h]
          rw [hs, scan_fst defs skips lines (some i) _]
          simp [lastMatchStep, h]
      | none =>
          have hs : scanLine defs skips (c, sts) l = (c, sts) := by
            simp [scanLine, h]
          rw [hs, scan_fst defs skips lines c sts]
          simp [lastMatchStep, h]

theorem lastMatch_of_no_match (defs : List StageDef) (skips : List String) :
    ∀ (lines : List String) (a : Option Nat),
      (∀ l ∈ lines, findMatchIdx skips l defs = none) →
      lines.foldl (lastMatchStep defs skips) a = a
  | [], _, _ => rfl
  | l :: lines, a, h => by
      simp only [List.foldl_cons]
      have h1 : findMatchIdx skips l defs = none := h l (by simp)
      have hs : lastMatchStep defs skips a l = a := by simp [lastMatchStep, h1]
      rw [hs]
      exact lastMatch_of_no_match defs skips lines a (fun l' hl' => h l' (by simp [hl']))

theorem lastMatch_append_last (defs : List StageDef) (skips : List String)
    (pre post : List String) (l : String) (k : Nat)
    (hl : findMatchIdx skips l defs = some k)
    (hpost : ∀ l' ∈ post, findMatchIdx skips l' defs = none) :
    (pre ++ l :: post).foldl (lastMatchStep defs skips) none = some k := by
  rw [List.foldl_append, List.foldl_cons]
  have hs : lastMatchStep defs skips (pre.foldl (lastMatchStep defs skips) none) l = some k := by
    simp [lastMatchStep, hl]
  rw [hs]
  exact lastMatch_of_no_match defs skips post (some k) hpost

/-- The fields of a stage record other than the mutable detail text. -/
def stageCore (st : Stage) : String × String × String × Bool :=
  (st.id, st.label, st.status, st.skipped)

theorem updDetail_core (defs : List StageDef) (i : Nat) (line : String)
    (stages : List Stage) (j : Nat) :
    ((updDetail defs i line stages).get? j).map stageCore =
      (stages.get? j).map stageCore := by
  unfold updDetail
  cases hd : defs.get? i with
  | none => rfl
  | some d =>
      dsimp only
      cases hf : d.detail_from_line with
      | none => rfl
      | some fn =>
          dsimp only
          cases hst : stages.get? i with
          | none => rfl
          | some st =>
              dsimp only
              by_cases hnd : fn line st.detail ≠ ""
              · simp only [if_pos hnd]
                by_cases hij : i = j
                · subst hij
                  rw [List.get?_set_eq, hst]
                  rfl
                · rw [List.get?_set_ne _ _ hij]
              · simp only [if_neg hnd]

theorem scan_core (defs : List StageDef) (skips : List String) :
    ∀ (lines : List String) (c : Option Nat) (sts : List Stage) (j : Nat),
      (((lines.foldl (scanLine defs skips) (c, sts)).2).get? j).map stageCore =
        (sts.get? j).map stageCore
  | [], _, _, _ => rfl
  | l :: lines, c, sts, j => by
      simp only [List.foldl_cons]
      cases h : findMatchIdx skips l defs with
      | some i =>
          have hs : scanLine defs skips (c, sts) l = (some i, updDetail defs i l sts) := by
            simp [scanLine, h]
          rw [hs, scan_core defs skips lines (some i) _ j]
          exact updDetail_core defs i l sts j
      | none =>
          have hs : scanLine defs skips (c, sts) l = (c, sts) := by
            simp [scanLine, h]
          rw [hs, scan_core defs skips lines c sts j]

theorem findMatchIdx_spec (skips : List String) (line : String) :
    ∀ (defs : List StageDef) (k : Nat),
      findMatchIdx skips line defs = some k →
      ∃ d, defs.get? k = some d ∧ skips.contains d.id = false ∧
        lineMatches d line = true
  | [], k => by intro h; simp [findMatchIdx] at h
  | d :: rest, k => by
      intro h
      rw [findMatchIdx] at h
      by_cases hc : (!skips.contains d.id && lineMatches d line) = true
      · rw [if_pos hc] at h
        have hk : k = 0 := by simpa using h.symm
        subst hk
        rcases Bool.and_eq_true_iff.mp hc with ⟨h1, h2⟩
        exact ⟨d, rfl, by simpa using h1, h2⟩
      · rw [if_neg hc] at h
        rcases Option.map_eq_some'.mp h with ⟨k', hk', hkk⟩
        rcases findMatchIdx_spec skips line rest k' hk' with ⟨d', hd', hsk, hm⟩
        exact ⟨d', by rw [← hkk]; simpa using hd', hsk, hm⟩

theorem findMatchIdx_none_of (skips : List String) (line : String) :
    ∀ (defs : List StageDef),
      (∀ d ∈ defs, skips.contains d.id = true ∨ lineMatches d line = false) →
      findMatchIdx skips line defs = none
  | [], _ => rfl
  | d :: rest, h => by
      rw [findMatchIdx]
      have hd := h d (by simp)
      have hc : (!skips.contains d.id && lineMatches d line) = false := by
        rcases hd with h1 | h1
        · rw [h1]; rfl
        · rw [h1, Bool.and_false]
      rw [hc]
      simp only [Bool.false_eq_true, if_false]
      rw [findMatchIdx_none_of skips line rest (fun d' hd' => h d' (by simp [hd']))]
      rfl

theorem initStage_core (env : EnvInfo) (bs : BackupState) (skips : List String)
    (d : StageDef) :
    stageCore (initStage env bs skips d) =
      (d.id, d.label,
        (if skips.contains d.id then "done" else "pending"), skips.contains d.id) := rfl

theorem finalizeStages_get? (c : Nat) :
    ∀ (sts : List Stage) (i0 j : Nat),
      (finalizeStages c i0 sts).get? j = (sts.get? j).map (fun st =>
        if st.skipped then st
        else { st with
                 status := if i0 + j < c then "done"
                   else if i0 + j = c then "active" else "pending" })
  | [], _, _ => rfl
  | st :: rest, i0, 0 => by
      simp only [finalizeStages, List.get?_cons_zero, Option.map_some', Nat.add_zero]
  | st :: rest, i0, j + 1 => by
      simp only [finalizeStages, List.get?_cons_succ]
      rw [finalizeStages_get? c rest (i0 + 1) j]
      have h1 : i0 + 1 + j = i0 + (j + 1) := by omega
      rw [h1]

theorem finalizeStages_length (c : Nat) :
    ∀ (sts : List Stage) (i0 : Nat), (finalizeStages c i0 sts).length = sts.length
  | [], _ => rfl
  | _ :: rest, i0 => by
      simp only [finalizeStages, List.length_cons]
      rw [finalizeStages_length c rest (i0 + 1)]

theorem markFirstActive_skipped :
    ∀ (sts : List Stage) (j : Nat),
      ((markFirstActive sts).get? j).map (fun st => st.skipped) =
        (sts.get? j).map (fun st => st.skipped)
  | [], _ => rfl
  | st :: rest, j => by
      simp only [markFirstActive]
      by_cases h : st.skipped
      · rw [if_pos h]
        cases j with
        | zero => rfl
        | succ j =>
            simp only [List.get?_cons_succ]
            exact markFirstActive_skipped rest j
      · rw [if_neg h]
        cases j with
        | zero => rfl
        | succ j => rfl

theorem markFirstActive_length :
    ∀ (sts : List Stage), (markFirstActive sts).length = sts.length
  | [] => rfl
  | st :: rest => by
      simp only [markFirstActive]
      by_cases h : st.skipped
      · rw [if_pos h]
        simp only [List.length_cons]
        rw [markFirstActive_length rest]
      · rw [if_neg h]
        rfl

theorem markFirstActive_first :
    ∀ (sts : List Stage) (j : Nat) (stj : Stage),
      sts.get? j = some stj → stj.skipped = false →
      (∀ j' st', j' < j → sts.get? j' = some st' → st'.skipped = true) →
      (markFirstActive sts).get? j = some { stj with status := "active" }
  | [], j, stj, h, _, _ => by simp at h
  | st :: rest, 0, stj, h, hsk, _ => by
      simp only [List.get?_cons_zero, Option.some_inj] at h
      subst h
      simp only [markFirstActive, hsk, Bool.false_eq_true, if_false]
      rfl
  | st :: rest, j + 1, stj, h, hsk, hearlier => by
      have h0 : st.skipped = true := by
        have := hearlier 0 st (by omega) (by rfl)
        exact this
      simp only [markFirstActive, h0, if_true, List.get?_cons_succ]
      exact markFirstActive_first rest j stj (by simpa using h) hsk
        (fun j' st' hj' hst' => hearlier (j' + 1) st' (by omega) (by simpa using hst'))

theorem markFirstActive_later :
    ∀ (sts : List Stage) (j : Nat),
      (∃ j' st', j' < j ∧ sts.get? j' = some st' ∧ st'.skipped = false) →
      (markFirstActive sts).get? j = sts.get? j
  | [], j, _ => by simp [markFirstActive]
  | st :: rest, 0, h => by
      rcases h with ⟨j', st', hj', _, _⟩
      omega
  | st :: rest, j + 1, h => by
      rcases h with ⟨j', st', hj', hget, hsk⟩
      simp only [markFirstActive]
      by_cases h0 : st.skipped
      · rw [if_pos h0]
        simp only [List.get?_cons_succ]
        apply markFirstActive_later rest j
        cases j' with
        | zero =>
            simp only [List.get?_cons_zero, Option.some_inj] at hget
            subst hget
            rw [h0] at hsk
            simp at hsk
        | succ j'' =>
            exact ⟨j'', st', by omega, by simpa using hget, hsk⟩
      · rw [if_neg h0]
        simp only [List.get?_cons_succ]

/-- The fields of an ai-toolkit stage record other than the detail text. -/
def aStageCore (st : AStage) : String × String × String :=
  (st.id, st.label, st.status)

theorem aitk_scan_fst (defs : List StageDef) :
    ∀ (lines : List String) (c : Option Nat) (sts : List AStage),
      (lines.foldl (aitkScanLine defs) (c, sts)).1 =
        lines.foldl (lastMatchStep defs []) c
  | [], _, _ => rfl
  | l :: lines, c, sts => by
      simp only [List.foldl_cons]
      cases h : findMatchIdx [] l defs with
      | some i =>
          have hs : aitkScanLine defs (c, sts) l = (some i, aitkUpdDetail defs i l sts) := by
            simp [aitkScanLine, h]
          rw [hs, aitk_scan_fst defs lines (some i) _]
          simp [lastMatchStep, h]
      | none =>
          have hs : aitkScanLine defs (c, sts) l = (c, sts) := by
            simp [aitkScanLine, h]
          rw [hs, aitk_scan_fst defs lines c sts]
          simp [lastMatchStep, h]

theorem aitkUpdDetail_core (defs : List StageDef) (i : Nat) (line : String)
    (stages : List AStage) (j : Nat) :
    ((aitkUpdDetail defs i line stages).get? j).map aStageCore =
      (stages.get? j).map aStageCore := by
  unfold aitkUpdDetail
  cases hd : defs.get? i with
  | none => rfl
  | some d =>
      dsimp only
      cases hf : d.detail_from_line with
      | none => rfl
      | some fn =>
          dsimp only
          cases hst : stages.get? i with
          | none => rfl
          | some st =>
              dsimp only
              by_cases hnd : fn line st.detail ≠ ""
              · simp only [if_pos hnd]
                by_cases hij : i = j
                · subst hij
                  rw [List.get?_set_eq, hst]
                  rfl
                · rw [List.get?_set_ne _ _ hij]
              · simp only [if_neg hnd]

theorem aitk_scan_core (defs : List StageDef) :
    ∀ (lines : List String) (c : Option Nat) (sts : List AStage) (j : Nat),
      (((lines.foldl (aitkScanLine defs) (c, sts)).2).get? j).map aStageCore =
        (sts.get? j).map aStageCore
  | [], _, _, _ => rfl
  | l :: lines, c, sts, j => by
      simp only [List.foldl_cons]
      cases h : findMatchIdx [] l defs with
      | some i =>
          have hs : aitkScanLine defs (c, sts) l = (some i, aitkUpdDetail defs i l sts) := by
            simp [aitkScanLine, h]
          rw [hs, aitk_scan_core defs lines (some i) _ j]
          exact aitkUpdDetail_core defs i l sts j
      | none =>
          have hs : aitkScanLine defs (c, sts) l = (c, sts) := by
            simp [aitkScanLine, h]
          rw [hs, aitk_scan_core defs lines c sts j]

theorem aitkFinalize_get? (c : Nat) :
    ∀ (sts : List AStage) (i0 j : Nat),
      (aitkFinalize c i0 sts).get? j = (sts.get? j).map (fun st =>
        { st with
            status := if i0 + j < c then "done"
              else if i0 + j = c then "active" else "pending" })
  | [], _, _ => rfl
  | st :: rest, i0, 0 => by
      simp only [aitkFinalize, List.get?_cons_zero, Option.map_some', Nat.add_zero]
  | st :: rest, i0, j + 1 => by
      simp only [aitkFinalize, List.get?_cons_succ]
      rw [aitkFinalize_get? c rest (i0 + 1) j]
      have h1 : i0 + 1 + j = i0 + (j + 1) := by omega
      rw [h1]

theorem compute_eq_finalize (env : EnvInfo) (defs : List StageDef)
    (lines : List String) (bs : BackupState) (k : Nat)
    (h : lines.foldl (lastMatchStep defs (skipIdsOf bs)) none = some k) :
    compute_stage_states env defs lines bs =
      finalizeStages k 0 ((lines.foldl (scanLine defs (skipIdsOf bs))
        (none, defs.map (initStage env bs (skipIdsOf bs)))).2) := by
  simp only [compute_stage_states]
  rw [scan_fst, h]

theorem compute_eq_markFirstActive (env : EnvInfo) (defs : List StageDef)
    (lines : List String) (bs : BackupState)
    (h : lines.foldl (lastMatchStep defs (skipIdsOf bs)) none = none) :
    compute_stage_states env defs lines bs =
      markFirstActive ((lines.foldl (scanLine defs (skipIdsOf bs))
        (none, defs.map (initStage env bs (skipIdsOf bs)))).2) := by
  simp only [compute_stage_states]
  rw [scan_fst, h]

theorem aitk_compute_eq_finalize (defs : List StageDef)
    (lines : List String) (k : Nat)
    (h : lines.foldl (lastMatchStep defs []) none = some k) :
    aitk_compute_stage_states defs lines =
      aitkFinalize k 0 ((lines.foldl (aitkScanLine defs)
        ((none : Option Nat), defs.map (fun d =>
          { id := d.id, label := d.label, detail := d.detail.getD "",
            status := "pending" : AStage }))).2) := by
  simp only [aitk_compute_stage_states]
  rw [aitk_scan_fst, h]

theorem aitk_compute_eq_cold (defs : List StageDef) (lines : List String)
    (h : lines.foldl (lastMatchStep defs []) none = none) :
    aitk_compute_stage_states defs lines =
      (match ((lines.foldl (aitkScanLine defs)
        ((none : Option Nat), defs.map (fun d =>
          { id := d.id, label := d.label, detail := d.detail.getD "",
            status := "pending" : AStage }))).2) with
       | [] => []
       | s :: rest => { s with status := "active" } :: rest) := by
  simp only [aitk_compute_stage_states]
  rw [aitk_scan_fst, h]

/-- Sample environment used by the concrete witnesses (restore enabled). -/
def envW : EnvInfo :=
  { backup_repo := some "user/backup", restore_enabled := true,
    hf_token := false, civitai_token := false }

/-- Sample backup state used by the concrete witnesses (restore enabled,
no manifest yet). -/
def bsW : BackupState :=
  { enabled := true, repo := some "user/backup", nodes := [],
    has_manifest := false, message := "m" }

/-- Sample environment with the restore feature disabled. -/
def envD : EnvInfo := { envW with restore_enabled := false }

/-- Sample backup state with the restore feature disabled (the two backup
stages are then skipped). -/
def bsD : BackupState := { bsW with enabled := false }

/-- C1: if the last line (in file order) that the matcher resolves to any
stage resolves to the stage at index `k`, then `compute_stage_states`
reports every non-skipped stage before `k` as done, stage `k` as active and
every non-skipped stage after `k` as pending, while skipped stages are
reported done; and likewise (without the skip concept) for the ai-toolkit
variant of `compute_stage_states`. -/
theorem compute_stage_states_last_match :
    (∀ (env : EnvInfo) (defs : List StageDef) (bs : BackupState)
       (pre post : List String) (l : String) (k : Nat),
      findMatchIdx (skipIdsOf bs) l defs = some k →
      (∀ l' ∈ post, findMatchIdx (skipIdsOf bs) l' defs = none) →
      ∀ i st, (compute_stage_states env defs (pre ++ l :: post) bs).get? i = some st →
        (st.skipped = true → st.status = "done") ∧
        (st.skipped = false →
          st.status = if i < k then "done" else if i = k then "active" else "pending"))
    ∧
    (∀ (defs : List StageDef) (pre post : List String) (l : String) (k : Nat),
      findMatchIdx [] l defs = some k →
      (∀ l' ∈ post, findMatchIdx [] l' defs = none) →
      ∀ i st, (aitk_compute_stage_states defs (pre ++ l :: post)).get? i = some st →
        st.status = if i < k then "done" else if i = k then "active" else "pending") := by
  constructor
  · intro env defs bs pre post l k hl hpost i st hget
    have hlast := lastMatch_append_last defs (skipIdsOf bs) pre post l k hl hpost
    rw [compute_eq_finalize env defs (pre ++ l :: post) bs k hlast] at hget
    rw [finalizeStages_get?] at hget
    rcases Option.map_eq_some'.mp hget with ⟨st0, hst0, hst⟩
    have hcore := scan_core defs (skipIdsOf bs) (pre ++ l :: post) none
      (defs.map (initStage env bs (skipIdsOf bs))) i
    rw [hst0, List.get?_map] at hcore
    cases hd : defs.get? i with
    | none => rw [hd] at hcore; simp at hcore
    | some d =>
        rw [hd] at hcore
        simp only [Option.map_some'] at hcore
        rw [initStage_core] at hcore
        have hcore' : stageCore st0 =
            (d.id, d.label,
              (if (skipIdsOf bs).contains d.id then "done" else "pending"),
              (skipIdsOf bs).contains d.id) := by
          exact Option.some.inj hcore
        have hsk : st0.skipped = (skipIdsOf bs).contains d.id :=
          congrArg (fun p => p.2.2.2) hcore'
        have hstat : st0.status =
            (if (skipIdsOf bs).contains d.id then "done" else "pending") :=
          congrArg (fun p => p.2.2.1) hcore'
        by_cases hc : (skipIdsOf bs).contains d.id = true
        · have hsk' : st0.skipped = true := by rw [hsk, hc]
          rw [if_pos hsk'] at hst
          subst hst
          constructor
          · intro _
            rw [hstat, if_pos hc]
          · intro habs
            rw [habs] at hsk'
            simp at hsk'
        · have hc' : (skipIdsOf bs).contains d.id = false := by
            simpa using hc
          have hsk' : st0.skipped = false := by rw [hsk, hc']
          rw [hsk'] at hst
          simp only [Bool.false_eq_true, if_false] at hst
          subst hst
          constructor
          · intro habs
            simp [hsk'] at habs
          · intro _
            simp only [Nat.zero_add]
  · intro defs pre post l k hl hpost i st hget
    have hlast := lastMatch_append_last defs [] pre post l k hl hpost
    rw [aitk_compute_eq_finalize defs (pre ++ l :: post) k hlast] at hget
    rw [aitkFinalize_get?] at hget
    rcases Option.map_eq_some'.mp hget with ⟨st0, hst0, hst⟩
    subst hst
    simp only [Nat.zero_add]

/-- The `wheels` stage record as reported pending in the C1 witness run. -/
def stageWheelsPending : Stage :=
  { id := "wheels", label := "Extra wheels", detail := "Installing sageattention",
    status := "pending", skipped := false }

/-- The `repo` stage record as reported done in the C1 witness run. -/
def aStageRepoDone : AStage :=
  { id := "repo", label := "Repository", detail := "Cloning ai-toolkit source",
    status := "done" }

/-- Witness for C1 on the concrete stage tables of both scripts: the last
matching line resolves to the `venv` stage (index 1), and the stage after
it is reported pending (ComfyUI table) / the stage before it is reported
done (ai-toolkit table). -/
theorem compute_stage_states_last_match_witness :
    findMatchIdx (skipIdsOf bsW) "Creating venv" STAGE_DEFS = some 1 ∧
    (∀ l' ∈ ["some unrelated line"],
      findMatchIdx (skipIdsOf bsW) l' STAGE_DEFS = none) ∧
    (compute_stage_states envW STAGE_DEFS
        (["STAGE: Checking CUDA"] ++ "Creating venv" :: ["some unrelated line"])
        bsW).get? 2 = some stageWheelsPending ∧
    (stageWheelsPending.skipped = false →
      stageWheelsPending.status =
        if 2 < 1 then "done" else if 2 = 1 then "active" else "pending") ∧
    findMatchIdx [] "[ai-toolkit] creating venv" AITK_STAGE_DEFS = some 1 ∧
    (aitk_compute_stage_states AITK_STAGE_DEFS
        ([] ++ "[ai-toolkit] creating venv" :: [])).get? 0 = some aStageRepoDone ∧
    aStageRepoDone.status = if 0 < 1 then "done" else if 0 = 1 then "active" else "pending" :=
  ⟨by decide, by decide, by decide,
    (compute_stage_states_last_match.1 envW STAGE_DEFS bsW
      ["STAGE: Checking CUDA"] ["some unrelated line"] "Creating venv" 1
      (by decide) (by decide) 2 stageWheelsPending (by decide)).2,
    by decide, by decide,
    compute_stage_states_last_match.2 AITK_STAGE_DEFS [] [] "[ai-toolkit] creating venv" 1
      (by decide) (by decide) 0 aStageRepoDone (by decide)⟩

/-- C2: if no tail line matches any non-skipped definition's patterns, the
first non-skipped stage is reported active and every other non-skipped
stage pending (cold start); likewise, stage 0 active and the rest pending
for the ai-toolkit variant. -/
theorem compute_stage_states_cold_start :
    (∀ (env : EnvInfo) (defs : List StageDef) (bs : BackupState)
       (lines : List String),
      (∀ l ∈ lines, ∀ d ∈ defs,
        (skipIdsOf bs).contains d.id = true ∨ lineMatches d l = false) →
      ∀ i st, (compute_stage_states env defs lines bs).get? i = some st →
        st.skipped = false →
        ((∀ j st', j < i → (compute_stage_states env defs lines bs).get? j = some st' →
            st'.skipped = true) → st.status = "active") ∧
        ((∃ j st', j < i ∧ (compute_stage_states env defs lines bs).get? j = some st' ∧
            st'.skipped = false) → st.status = "pending"))
    ∧
    (∀ (defs : List StageDef) (lines : List String),
      (∀ l ∈ lines, ∀ d ∈ defs, lineMatches d l = false) →
      ∀ i st, (aitk_compute_stage_states defs lines).get? i = some st →
        st.status = if i = 0 then "active" else "pending") := by
  constructor
  · intro env defs bs lines h i st hget hsk
    have hnone : ∀ l ∈ lines, findMatchIdx (skipIdsOf bs) l defs = none :=
      fun l hl => findMatchIdx_none_of _ _ _ (h l hl)
    have hcold := lastMatch_of_no_match defs (skipIdsOf bs) lines none hnone
    have heq := compute_eq_markFirstActive env defs lines bs hcold
    rw [heq] at hget
    have hmap := markFirstActive_skipped
      ((lines.foldl (scanLine defs (skipIdsOf bs))
        (none, defs.map (initStage env bs (skipIdsOf bs)))).2) i
    rw [hget] at hmap
    cases hs0 : (lines.foldl (scanLine defs (skipIdsOf bs))
        (none, defs.map (initStage env bs (skipIdsOf bs)))).2.get? i with
    | none => rw [hs0] at hmap; simp at hmap
    | some st0 =>
        rw [hs0] at hmap
        simp only [Option.map_some'] at hmap
        have hsk0 : st0.skipped = false := by
          have h2 := Option.some.inj hmap
          rw [← h2, hsk]
        have hcore := scan_core defs (skipIdsOf bs) lines none
          (defs.map (initStage env bs (skipIdsOf bs))) i
        rw [hs0, List.get?_map] at hcore
        have hstat0 : st0.status = "pending" := by
          cases hd : defs.get? i with
          | none => rw [hd] at hcore; simp at hcore
          | some d =>
              rw [hd] at hcore
              simp only [Option.map_some'] at hcore
              rw [initStage_core] at hcore
              have hcore' := Option.some.inj hcore
              have hskd : st0.skipped = (skipIdsOf bs).contains d.id :=
                congrArg (fun p => p.2.2.2) hcore'
              have hstd : st0.status =
                  (if (skipIdsOf bs).contains d.id then "done" else "pending") :=
                congrArg (fun p => p.2.2.1) hcore'
              rw [hsk0] at hskd
              rw [hstd, ← hskd]
              rfl
        constructor
        · intro hearly
          have hearly' : ∀ j st', j < i →
              (lines.foldl (scanLine defs (skipIdsOf bs))
                (none, defs.map (initStage env bs (skipIdsOf bs)))).2.get? j = some st' →
              st'.skipped = true := by
            intro j st' hj hj'
            have hmapj := markFirstActive_skipped
              ((lines.foldl (scanLine defs (skipIdsOf bs))
                (none, defs.map (initStage env bs (skipIdsOf bs)))).2) j
            rw [hj'] at hmapj
            cases hrj : (markFirstActive ((lines.foldl (scanLine defs (skipIdsOf bs))
                (none, defs.map (initStage env bs (skipIdsOf bs)))).2)).get? j with
            | none => rw [hrj] at hmapj; simp at hmapj
            | some st'' =>
                rw [hrj] at hmapj
                simp only [Option.map_some'] at hmapj
                have h1 := hearly j st'' hj (by rw [heq]; exact hrj)
                have h2 := Option.some.inj hmapj
                rw [← h2, h1]
          have hfst := markFirstActive_first _ i st0 hs0 hsk0 hearly'
          rw [hget] at hfst
          have h3 := Option.some.inj hfst
          rw [h3]
        · intro hex
          rcases hex with ⟨j, st', hj, hget', hsk'⟩
          rw [heq] at hget'
          have hmapj := markFirstActive_skipped
            ((lines.foldl (scanLine defs (skipIdsOf bs))
              (none, defs.map (initStage env bs (skipIdsOf bs)))).2) j
          rw [hget'] at hmapj
          cases hs2 : (lines.foldl (scanLine defs (skipIdsOf bs))
              (none, defs.map (initStage env bs (skipIdsOf bs)))).2.get? j with
          | none => rw [hs2] at hmapj; simp at hmapj
          | some st2 =>
              rw [hs2] at hmapj
              simp only [Option.map_some'] at hmapj
              have hsk2 : st2.skipped = false := by
                have h2 := Option.some.inj hmapj
                rw [← h2]
                exact hsk'
              have hlater := markFirstActive_later _ i ⟨j, st2, hj, hs2, hsk2⟩
              rw [hget, hs0] at hlater
              have h3 := Option.some.inj hlater
              rw [← h3] at hstat0
              exact hstat0
  · intro defs lines h i st hget
    have hnone : ∀ l ∈ lines, findMatchIdx [] l defs = none := by
      intro l hl
      apply findMatchIdx_none_of
      intro d hd
      exact Or.inr (h l hl d hd)
    have hcold := lastMatch_of_no_match defs [] lines none hnone
    have heq := aitk_compute_eq_cold defs lines hcold
    rw [heq] at hget
    cases hsc : (lines.foldl (aitkScanLine defs)
        ((none : Option Nat), defs.map (fun d =>
          { id := d.id, label := d.label, detail := d.detail.getD "",
            status := "pending" : AStage }))).2 with
    | nil => rw [hsc] at hget; simp at hget
    | cons s rest =>
        rw [hsc] at hget
        cases i with
        | zero =>
            simp only [List.get?_cons_zero, Option.some_inj] at hget
            rw [← hget]
            rfl
        | succ j =>
            simp only [List.get?_cons_succ] at hget
            have hcore := aitk_scan_core defs lines none
              (defs.map (fun d =>
                { id := d.id, label := d.label, detail := d.detail.getD "",
                  status := "pending" : AStage })) (j + 1)
            rw [hsc] at hcore
            simp only [List.get?_cons_succ] at hcore
            rw [hget, List.get?_map] at hcore
            cases hd : defs.get? (j + 1) with
            | none => rw [hd] at hcore; simp at hcore
            | some d =>
                rw [hd] at hcore
                simp only [Option.map_some'] at hcore
                have hcore' := Option.some.inj hcore
                have hstat : st.status = "pending" :=
                  congrArg (fun p => p.2.2) hcore'
                rw [hstat]
                simp

/-- The `bootstrap` stage record reported active in the C2 witness run. -/
def stageBootstrapActive : Stage :=
  { id := "bootstrap", label := "GPU & workspace",
    detail := "Checking CUDA drivers and preparing /workspace",
    status := "active", skipped := false }

/-- The `venv` stage record reported pending in the C2 witness run. -/
def stageVenvPendingC : Stage :=
  { id := "venv", label := "Python environment",
    detail := "Creating venv and upgrading pip",
    status := "pending", skipped := false }

/-- The ai-toolkit `venv` stage record reported pending in the C2 witness
run. -/
def aStageVenvPending : AStage :=
  { id := "venv", label := "Python environment",
    detail := "Creating virtualenv and upgrading pip", status := "pending" }

/-- Witness for C2 on the concrete stage tables: a log with no matching
line leaves the first (non-skipped) stage active and the others pending. -/
theorem compute_stage_states_cold_start_witness :
    (∀ l ∈ ["hello world"], ∀ d ∈ STAGE_DEFS,
      (skipIdsOf bsD).contains d.id = true ∨ lineMatches d l = false) ∧
    (compute_stage_states envD STAGE_DEFS ["hello world"] bsD).get? 0 =
      some stageBootstrapActive ∧
    stageBootstrapActive.status = "active" ∧
    stageVenvPendingC.status = "pending" ∧
    (aitk_compute_stage_states AITK_STAGE_DEFS ["nothing here"]).get? 1 =
      some aStageVenvPending ∧
    aStageVenvPending.status = if 1 = 0 then "active" else "pending" :=
  ⟨by decide, by decide,
   (compute_stage_states_cold_start.1 envD STAGE_DEFS bsD ["hello world"] (by decide)
     0 stageBootstrapActive (by decide) (by decide)).1
     (fun j st' hj _ => absurd hj (by omega)),
   (compute_stage_states_cold_start.1 envD STAGE_DEFS bsD ["hello world"] (by decide)
     1 stageVenvPendingC (by decide) (by decide)).2
     ⟨0, stageBootstrapActive, by omega, by decide, by decide⟩,
   by decide,
   compute_stage_states_cold_start.2 AITK_STAGE_DEFS ["nothing here"] (by decide)
     1 aStageVenvPending (by decide)⟩

theorem markFirstActive_skipped_entry :
    ∀ (sts : List Stage) (i : Nat) (st0 : Stage),
      sts.get? i = some st0 → st0.skipped = true →
      (markFirstActive sts).get? i = some st0
  | [], i, st0, h, _ => by simp at h
  | s :: rest, 0, st0, h, hsk => by
      simp only [List.get?_cons_zero, Option.some_inj] at h
      subst h
      simp only [markFirstActive, hsk, if_true]
      rfl
  | s :: rest, i + 1, st0, h, hsk => by
      simp only [List.get?_cons_succ] at h
      simp only [markFirstActive]
      by_cases h0 : s.skipped
      · rw [if_pos h0]
        simp only [List.get?_cons_succ]
        exact markFirstActive_skipped_entry rest i st0 h hsk
      · rw [if_neg h0]
        simp only [List.get?_cons_succ]
        exact h

/-- A stage whose id is in the skip set comes out of `compute_stage_states`
with status `done` and the skipped flag set, whatever the tail lines. -/
theorem compute_skipped_done (env : EnvInfo) (defs : List StageDef)
    (lines : List String) (bs : BackupState) (i : Nat) (d : StageDef) (st : Stage)
    (hd : defs.get? i = some d) (hc : (skipIdsOf bs).contains d.id = true)
    (hget : (compute_stage_states env defs lines bs).get? i = some st) :
    st.status = "done" ∧ st.skipped = true := by
  have hcore0 : ((lines.foldl (scanLine defs (skipIdsOf bs))
      (none, defs.map (initStage env bs (skipIdsOf bs)))).2.get? i).map stageCore =
      some (d.id, d.label, "done", true) := by
    rw [scan_core, List.get?_map, hd]
    simp only [Option.map_some']
    rw [initStage_core, hc]
    rfl
  cases hs0 : (lines.foldl (scanLine defs (skipIdsOf bs))
      (none, defs.map (initStage env bs (skipIdsOf bs)))).2.get? i with
  | none => rw [hs0] at hcore0; simp at hcore0
  | some st0 =>
      rw [hs0] at hcore0
      simp only [Option.map_some'] at hcore0
      have hcore' := Option.some.inj hcore0
      have hstat0 : st0.status = "done" := congrArg (fun p => p.2.2.1) hcore'
      have hsk0 : st0.skipped = true := congrArg (fun p => p.2.2.2) hcore'
      cases hcur : lines.foldl (lastMatchStep defs (skipIdsOf bs)) none with
      | none =>
          rw [compute_eq_markFirstActive env defs lines bs hcur] at hget
          rw [markFirstActive_skipped_entry _ i st0 hs0 hsk0] at hget
          have h3 := Option.some.inj hget
          rw [← h3]
          exact ⟨hstat0, hsk0⟩
      | some c =>
          rw [compute_eq_finalize env defs lines bs c hcur] at hget
          rw [finalizeStages_get?, hs0] at hget
          simp only [Option.map_some'] at hget
          rw [hsk0] at hget
          simp only [if_true] at hget
          have h3 := Option.some.inj hget
          rw [← h3]
          exact ⟨hstat0, hsk0⟩

/-- The pattern-erasure transform on a single definition: drop the
pattern list when the definition is skipped. -/
def eraseOnePatterns (skips : List String) (d : StageDef) : StageDef :=
  if skips.contains d.id then { d with patterns := [] } else d

/-- The pattern-erasure transform used to state that skipped stages'
patterns are never consulted: the pattern list of every skipped definition
is replaced by the empty list. -/
def eraseSkippedPatterns (skips : List String) (defs : List StageDef) :
    List StageDef :=
  defs.map (eraseOnePatterns skips)

theorem eraseOnePatterns_id (skips : List String) (d : StageDef) :
    (eraseOnePatterns skips d).id = d.id := by
  unfold eraseOnePatterns; split <;> rfl

theorem eraseOnePatterns_label (skips : List String) (d : StageDef) :
    (eraseOnePatterns skips d).label = d.label := by
  unfold eraseOnePatterns; split <;> rfl

theorem eraseOnePatterns_detail (skips : List String) (d : StageDef) :
    (eraseOnePatterns skips d).detail = d.detail := by
  unfold eraseOnePatterns; split <;> rfl

theorem eraseOnePatterns_factory (skips : List String) (d : StageDef) :
    (eraseOnePatterns skips d).detail_factory = d.detail_factory := by
  unfold eraseOnePatterns; split <;> rfl

theorem eraseOnePatterns_dfl (skips : List String) (d : StageDef) :
    (eraseOnePatterns skips d).detail_from_line = d.detail_from_line := by
  unfold eraseOnePatterns; split <;> rfl

theorem eraseOnePatterns_not_skipped (skips : List String) (d : StageDef)
    (h : skips.contains d.id = false) : eraseOnePatterns skips d = d := by
  unfold eraseOnePatterns
  rw [if_neg]
  simpa using h

theorem findMatchIdx_erase (skips : List String) (line : String) :
    ∀ (defs : List StageDef),
      findMatchIdx skips line (eraseSkippedPatterns skips defs) =
        findMatchIdx skips line defs
  | [] => rfl
  | d :: rest => by
      have hrec := findMatchIdx_erase skips line rest
      show findMatchIdx skips line (eraseOnePatterns skips d ::
        eraseSkippedPatterns skips rest) = _
      rw [findMatchIdx, findMatchIdx, eraseOnePatterns_id, hrec]
      by_cases hc : skips.contains d.id = true
      · rw [hc]
        simp only [Bool.not_true, Bool.false_and, Bool.false_eq_true, if_false]
      · have hc' : skips.contains d.id = false := by simpa using hc
        rw [eraseOnePatterns_not_skipped skips d hc']

theorem updDetail_erase (skips : List String) (defs : List StageDef) (i : Nat)
    (line : String) (stages : List Stage) :
    updDetail (eraseSkippedPatterns skips defs) i line stages =
      updDetail defs i line stages := by
  unfold updDetail eraseSkippedPatterns
  rw [List.get?_map]
  cases hd : defs.get? i with
  | none => rfl
  | some d =>
      simp only [Option.map_some']
      rw [eraseOnePatterns_dfl]

theorem scanLine_erase (skips : List String) (defs : List StageDef)
    (st : Option Nat × List Stage) (line : String) :
    scanLine (eraseSkippedPatterns skips defs) skips st line =
      scanLine defs skips st line := by
  unfold scanLine
  rw [findMatchIdx_erase]
  cases findMatchIdx skips line defs with
  | none => rfl
  | some i =>
      dsimp only
      rw [updDetail_erase]

theorem initStage_erase (env : EnvInfo) (bs : BackupState) (skips : List String)
    (d : StageDef) :
    initStage env bs skips (eraseOnePatterns skips d) = initStage env bs skips d := by
  unfold initStage
  rw [eraseOnePatterns_id, eraseOnePatterns_label, eraseOnePatterns_detail,
    eraseOnePatterns_factory]

/-- C4: when the restore feature is disabled, the two backup stages are
reported done with the skipped flag set (and hence never active), whatever
the tail lines; and `compute_stage_states` never consults the patterns of
skipped definitions — replacing them by empty pattern lists yields the very
same result. -/
theorem compute_stage_states_skipped_invariant :
    (∀ (env : EnvInfo) (defs : List StageDef) (lines : List String)
       (bs : BackupState) (i : Nat) (d : StageDef) (st : Stage),
      bs.enabled = false → defs.get? i = some d →
      (d.id = "backup-manager" ∨ d.id = "backup-nodes") →
      (compute_stage_states env defs lines bs).get? i = some st →
      st.status = "done" ∧ st.skipped = true ∧ st.status ≠ "active")
    ∧
    (∀ (env : EnvInfo) (defs : List StageDef) (lines : List String)
       (bs : BackupState),
      compute_stage_states env defs lines bs =
        compute_stage_states env (eraseSkippedPatterns (skipIdsOf bs) defs) lines bs) := by
  constructor
  · intro env defs lines bs i d st hbs hd hid hget
    have hc : (skipIdsOf bs).contains d.id = true := by
      unfold skipIdsOf
      rw [hbs]
      simp only [Bool.false_eq_true, if_false]
      rcases hid with h1 | h1 <;> simp [h1]
    rcases compute_skipped_done env defs lines bs i d st hd hc hget with ⟨h1, h2⟩
    refine ⟨h1, h2, ?_⟩
    rw [h1]
    decide
  · intro env defs lines bs
    have hmap : (eraseSkippedPatterns (skipIdsOf bs) defs).map
        (initStage env bs (skipIdsOf bs)) = defs.map (initStage env bs (skipIdsOf bs)) := by
      unfold eraseSkippedPatterns
      rw [List.map_map]
      exact List.map_congr_left (fun d _ => initStage_erase env bs (skipIdsOf bs) d)
    have hfun : scanLine (eraseSkippedPatterns (skipIdsOf bs) defs) (skipIdsOf bs) =
        scanLine defs (skipIdsOf bs) :=
      funext fun st => funext fun line => scanLine_erase (skipIdsOf bs) defs st line
    simp only [compute_stage_states]
    rw [hmap, hfun]

/-- The `backup-manager` stage definition (entry 3 of `STAGE_DEFS`),
restated for the C4 witness. -/
def stageDefManager : StageDef :=
  { id := "backup-manager", label := "ComfyUI manager",
    detail := some "Fetching ComfyUI manager metadata (first boot can take up to 2 minutes while registry downloads)",
    patterns := [reStage "Preparing ComfyUI Manager"] }

/-- The `backup-manager` stage record reported done+skipped in the C4
witness run. -/
def stageManagerSkipped : Stage :=
  { id := "backup-manager", label := "ComfyUI manager",
    detail := "Fetching ComfyUI manager metadata (first boot can take up to 2 minutes while registry downloads)",
    status := "done", skipped := true }

/-- Witness for C4: with restore disabled, the `backup-manager` stage is
reported done and skipped even though a line matching its pattern is
present in the tail. -/
theorem compute_stage_states_skipped_invariant_witness :
    bsD.enabled = false ∧
    STAGE_DEFS.get? 3 = some stageDefManager ∧
    (compute_stage_states envD STAGE_DEFS
        ["STAGE: Preparing ComfyUI Manager"] bsD).get? 3 = some stageManagerSkipped ∧
    (stageManagerSkipped.status = "done" ∧ stageManagerSkipped.skipped = true ∧
      stageManagerSkipped.status ≠ "active") ∧
    compute_stage_states envD STAGE_DEFS ["STAGE: Preparing ComfyUI Manager"] bsD =
      compute_stage_states envD (eraseSkippedPatterns (skipIdsOf bsD) STAGE_DEFS)
        ["STAGE: Preparing ComfyUI Manager"] bsD :=
  ⟨by decide, rfl, by decide,
   compute_stage_states_skipped_invariant.1 envD STAGE_DEFS
     ["STAGE: Preparing ComfyUI Manager"] bsD 3 stageDefManager
     stageManagerSkipped (by decide) (by rfl) (Or.inl rfl) (by decide),
   compute_stage_states_skipped_invariant.2 envD STAGE_DEFS
     ["STAGE: Preparing ComfyUI Manager"] bsD⟩

theorem updDetail_length (defs : List StageDef) (i : Nat) (line : String)
    (stages : List Stage) :
    (updDetail defs i line stages).length = stages.length := by
  unfold updDetail
  cases defs.get? i with
  | none => rfl
  | some d =>
      dsimp only
      cases d.detail_from_line with
      | none => rfl
      | some fn =>
          dsimp only
          cases stages.get? i with
          | none => rfl
          | some st =>
              dsimp only
              by_cases hnd : fn line st.detail ≠ ""
              · simp only [if_pos hnd, List.length_set]
              · simp only [if_neg hnd]

theorem scan_length (defs : List StageDef) (skips : List String) :
    ∀ (lines : List String) (c : Option Nat) (sts : List Stage),
      ((lines.foldl (scanLine defs skips) (c, sts)).2).length = sts.length
  | [], _, _ => rfl
  | l :: lines, c, sts => by
      simp only [List.foldl_cons]
      cases h : findMatchIdx skips l defs with
      | some i =>
          have hs : scanLine defs skips (c, sts) l = (some i, updDetail defs i l sts) := by
            simp [scanLine, h]
          rw [hs, scan_length defs skips lines (some i) _, updDetail_length]
      | none =>
          have hs : scanLine defs skips (c, sts) l = (c, sts) := by
            simp [scanLine, h]
          rw [hs, scan_length defs skips lines c sts]

theorem compute_stage_states_length (env : EnvInfo) (defs : List StageDef)
    (lines : List String) (bs : BackupState) :
    (compute_stage_states env defs lines bs).length = defs.length := by
  cases hcur : lines.foldl (lastMatchStep defs (skipIdsOf bs)) none with
  | none =>
      rw [compute_eq_markFirstActive env defs lines bs hcur, markFirstActive_length,
        scan_length, List.length_map]
  | some c =>
      rw [compute_eq_finalize env defs lines bs c hcur, finalizeStages_length,
        scan_length, List.length_map]

theorem aitkUpdDetail_length (defs : List StageDef) (i : Nat) (line : String)
    (stages : List AStage) :
    (aitkUpdDetail defs i line stages).length = stages.length := by
  unfold aitkUpdDetail
  cases defs.get? i with
  | none => rfl
  | some d =>
      dsimp only
      cases d.detail_from_line with
      | none => rfl
      | some fn =>
          dsimp only
          cases stages.get? i with
          | none => rfl
          | some st =>
              dsimp only
              by_cases hnd : fn line st.detail ≠ ""
              · simp only [if_pos hnd, List.length_set]
              · simp only [if_neg hnd]

theorem aitk_scan_length (defs : List StageDef) :
    ∀ (lines : List String) (c : Option Nat) (sts : List AStage),
      ((lines.foldl (aitkScanLine defs) (c, sts)).2).length = sts.length
  | [], _, _ => rfl
  | l :: lines, c, sts => by
      simp only [List.foldl_cons]
      cases h : findMatchIdx [] l defs with
      | some i =>
          have hs : aitkScanLine defs (c, sts) l = (some i, aitkUpdDetail defs i l sts) := by
            simp [aitkScanLine, h]
          rw [hs, aitk_scan_length defs lines (some i) _, aitkUpdDetail_length]
      | none =>
          have hs : aitkScanLine defs (c, sts) l = (c, sts) := by
            simp [aitkScanLine, h]
          rw [hs, aitk_scan_length defs lines c sts]

theorem aitk_compute_stage_states_length (defs : List StageDef)
    (lines : List String) :
    (aitk_compute_stage_states defs lines).length = defs.length := by
  have hlen := aitk_scan_length defs lines none (defs.map (fun d =>
    { id := d.id, label := d.label, detail := d.detail.getD "",
      status := "pending" : AStage }))
  rw [List.length_map] at hlen
  cases hcur : lines.foldl (lastMatchStep defs []) none with
  | none =>
      rw [aitk_compute_eq_cold defs lines hcur]
      cases hsc : (lines.foldl (aitkScanLine defs)
          ((none : Option Nat), defs.map (fun d =>
            { id := d.id, label := d.label, detail := d.detail.getD "",
              status := "pending" : AStage }))).2 with
      | nil =>
          rw [hsc] at hlen
          simpa using hlen
      | cons s rest =>
          rw [hsc] at hlen
          simpa using hlen
  | some c =>
      rw [aitk_compute_eq_finalize defs lines c hcur]
      have hfin : ∀ (sts : List AStage) (i0 : Nat),
          (aitkFinalize c i0 sts).length = sts.length := by
        intro sts
        induction sts with
        | nil => intro i0; rfl
        | cons s rest ih =>
            intro i0
            simp only [aitkFinalize, List.length_cons]
            rw [ih (i0 + 1)]
      rw [hfin]
      exact hlen

/-- C5 (amended): appending one line that the matcher resolves to stage
`k + 1` (in particular stage `k + 1` is not skipped — the original claim
fails when it is, see the counterexample) to a log on which stage `k` is
active moves the active stage to `k + 1` and demotes stage `k` to done;
likewise for the ai-toolkit variant, where no stage is ever skipped. -/
theorem compute_stage_states_forward_progress :
    (∀ (env : EnvInfo) (defs : List StageDef) (bs : BackupState)
       (lines : List String) (L : String) (k : Nat) (st : Stage),
      (compute_stage_states env defs lines bs).get? k = some st →
      st.status = "active" →
      findMatchIdx (skipIdsOf bs) L defs = some (k + 1) →
      ∃ st1 st2,
        (compute_stage_states env defs (lines ++ [L]) bs).get? k = some st1 ∧
        st1.status = "done" ∧
        (compute_stage_states env defs (lines ++ [L]) bs).get? (k + 1) = some st2 ∧
        st2.status = "active")
    ∧
    (∀ (defs : List StageDef) (lines : List String) (L : String) (k : Nat)
       (st : AStage),
      (aitk_compute_stage_states defs lines).get? k = some st →
      st.status = "active" →
      findMatchIdx [] L defs = some (k + 1) →
      ∃ st1 st2,
        (aitk_compute_stage_states defs (lines ++ [L])).get? k = some st1 ∧
        st1.status = "done" ∧
        (aitk_compute_stage_states defs (lines ++ [L])).get? (k + 1) = some st2 ∧
        st2.status = "active") := by
  constructor
  · intro env defs bs lines L k st hget hact hL
    have hcur : (lines ++ [L]).foldl (lastMatchStep defs (skipIdsOf bs)) none =
        some (k + 1) := by
      rw [List.foldl_append]
      simp only [List.foldl_cons, List.foldl_nil]
      simp [lastMatchStep, hL]
    have heq := compute_eq_finalize env defs (lines ++ [L]) bs (k + 1) hcur
    have hklen : k < defs.length := by
      rcases List.get?_eq_some.mp hget with ⟨h1, _⟩
      rw [compute_stage_states_length] at h1
      exact h1
    obtain ⟨dk, hdk⟩ : ∃ dk, defs.get? k = some dk := by
      cases hd : defs.get? k with
      | none =>
          rw [List.get?_eq_none] at hd
          omega
      | some d => exact ⟨d, rfl⟩
    have hcsk : (skipIdsOf bs).contains dk.id = false := by
      by_cases hcs : (skipIdsOf bs).contains dk.id = true
      · rcases compute_skipped_done env defs lines bs k dk st hdk hcs hget with ⟨h1, _⟩
        rw [hact] at h1
        exact absurd h1 (by decide)
      · simpa using hcs
    rcases findMatchIdx_spec (skipIdsOf bs) L defs (k + 1) hL with ⟨d', hd', hsk', _⟩
    have hcore_k : (((lines ++ [L]).foldl (scanLine defs (skipIdsOf bs))
        (none, defs.map (initStage env bs (skipIdsOf bs)))).2.get? k).map stageCore =
        some (dk.id, dk.label, "pending", false) := by
      rw [scan_core, List.get?_map, hdk]
      simp only [Option.map_some']
      rw [initStage_core, hcsk]
      rfl
    have hcore_k1 : (((lines ++ [L]).foldl (scanLine defs (skipIdsOf bs))
        (none, defs.map (initStage env bs (skipIdsOf bs)))).2.get? (k + 1)).map stageCore =
        some (d'.id, d'.label, "pending", false) := by
      rw [scan_core, List.get?_map, hd']
      simp only [Option.map_some']
      rw [initStage_core, hsk']
      rfl
    rcases Option.map_eq_some'.mp hcore_k with ⟨st0k, hs0k, hck⟩
    rcases Option.map_eq_some'.mp hcore_k1 with ⟨st0k1, hs0k1, hck1⟩
    have hskk : st0k.skipped = false := congrArg (fun p => p.2.2.2) hck
    have hskk1 : st0k1.skipped = false := congrArg (fun p => p.2.2.2) hck1
    refine ⟨{ st0k with status := "done" }, { st0k1 with status := "active" },
      ?_, rfl, ?_, rfl⟩
    · rw [heq, finalizeStages_get?, hs0k]
      simp only [Option.map_some']
      rw [hskk]
      simp only [Bool.false_eq_true, if_false]
      have hif : (if 0 + k < k + 1 then "done"
          else if 0 + k = k + 1 then "active" else "pending") = "done" := by
        rw [if_pos (by omega)]
      rw [hif]
    · rw [heq, finalizeStages_get?, hs0k1]
      simp only [Option.map_some']
      rw [hskk1]
      simp only [Bool.false_eq_true, if_false]
      have hif : (if 0 + (k + 1) < k + 1 then "done"
          else if 0 + (k + 1) = k + 1 then "active" else "pending") = "active" := by
        rw [if_neg (by omega), if_pos (by omega)]
      rw [hif]
  · intro defs lines L k st hget hact hL
    have hcur : (lines ++ [L]).foldl (lastMatchStep defs []) none = some (k + 1) := by
      rw [List.foldl_append]
      simp only [List.foldl_cons, List.foldl_nil]
      simp [lastMatchStep, hL]
    have heq := aitk_compute_eq_finalize defs (lines ++ [L]) (k + 1) hcur
    have hklen : k < defs.length := by
      rcases List.get?_eq_some.mp hget with ⟨h1, _⟩
      rw [aitk_compute_stage_states_length] at h1
      exact h1
    obtain ⟨dk, hdk⟩ : ∃ dk, defs.get? k = some dk := by
      cases hd : defs.get? k with
      | none =>
          rw [List.get?_eq_none] at hd
          omega
      | some d => exact ⟨d, rfl⟩
    rcases findMatchIdx_spec [] L defs (k + 1) hL with ⟨d', hd', _, _⟩
    have hcore_k : (((lines ++ [L]).foldl (aitkScanLine defs)
        ((none : Option Nat), defs.map (fun d =>
          { id := d.id, label := d.label, detail := d.detail.getD "",
            status := "pending" : AStage }))).2.get? k).map aStageCore =
        some (dk.id, dk.label, "pending") := by
      rw [aitk_scan_core, List.get?_map, hdk]
      rfl
    have hcore_k1 : (((lines ++ [L]).foldl (aitkScanLine defs)
        ((none : Option Nat), defs.map (fun d =>
          { id := d.id, label := d.label, detail := d.detail.getD "",
            status := "pending" : AStage }))).2.get? (k + 1)).map aStageCore =
        some (d'.id, d'.label, "pending") := by
      rw [aitk_scan_core, List.get?_map, hd']
      rfl
    rcases Option.map_eq_some'.mp hcore_k with ⟨st0k, hs0k, _⟩
    rcases Option.map_eq_some'.mp hcore_k1 with ⟨st0k1, hs0k1, _⟩
    refine ⟨{ st0k with status := "done" }, { st0k1 with status := "active" },
      ?_, rfl, ?_, rfl⟩
    · rw [heq, aitkFinalize_get?, hs0k]
      simp only [Option.map_some']
      have hif : (if 0 + k < k + 1 then "done"
          else if 0 + k = k + 1 then "active" else "pending") = "done" := by
        rw [if_pos (by omega)]
      rw [hif]
    · rw [heq, aitkFinalize_get?, hs0k1]
      simp only [Option.map_some']
      have hif : (if 0 + (k + 1) < k + 1 then "done"
          else if 0 + (k + 1) = k + 1 then "active" else "pending") = "active" := by
        rw [if_neg (by omega), if_pos (by omega)]
      rw [hif]

/-- C5, counterexample to the original claim: with the restore feature
disabled, stage 2 (`wheels`) is active; the appended line matches the
patterns of stage 3 (`backup-manager`) and of no earlier definition, yet
recomputing leaves stage 3 at done-by-skip (not active) and stage 2 still
active (not done), because skipped stages are excluded from matching. -/
theorem compute_stage_states_forward_progress_cex :
    (compute_stage_states envD STAGE_DEFS ["STAGE: Installing sageattention"] bsD).map
        (fun s => s.status) =
      ["done", "done", "active", "done", "done", "pending", "pending", "pending"] ∧
    STAGE_DEFS.get? 3 = some stageDefManager ∧
    lineMatches stageDefManager "STAGE: Preparing ComfyUI Manager" = true ∧
    (∀ d ∈ STAGE_DEFS.take 3,
      lineMatches d "STAGE: Preparing ComfyUI Manager" = false) ∧
    (compute_stage_states envD STAGE_DEFS
        (["STAGE: Installing sageattention"] ++ ["STAGE: Preparing ComfyUI Manager"])
        bsD).map (fun s => s.status) =
      ["done", "done", "active", "done", "done", "pending", "pending", "pending"] :=
  ⟨by decide, rfl, by decide, by decide, by decide⟩

/-- The `wheels` stage record reported active in the C5 witness run. -/
def stageWheelsActive : Stage :=
  { id := "wheels", label := "Extra wheels", detail := "Installing sageattention",
    status := "active", skipped := false }

/-- The ai-toolkit `venv` stage record reported active in the C5 witness
run. -/
def aStageVenvActive : AStage :=
  { id := "venv", label := "Python environment",
    detail := "Creating virtualenv and upgrading pip", status := "active" }

/-- Witness for the amended C5: with restore enabled (no skipped stages) an
appended line resolving to stage 3 advances the pipeline from stage 2, and
likewise for the ai-toolkit table from stage 1 to stage 2. -/
theorem compute_stage_states_forward_progress_witness :
    (compute_stage_states envW STAGE_DEFS ["STAGE: Installing sageattention"] bsW).get? 2 =
      some stageWheelsActive ∧
    findMatchIdx (skipIdsOf bsW) "STAGE: Preparing ComfyUI Manager" STAGE_DEFS = some 3 ∧
    (∃ st1 st2,
      (compute_stage_states envW STAGE_DEFS
          (["STAGE: Installing sageattention"] ++ ["STAGE: Preparing ComfyUI Manager"])
          bsW).get? 2 = some st1 ∧
      st1.status = "done" ∧
      (compute_stage_states envW STAGE_DEFS
          (["STAGE: Installing sageattention"] ++ ["STAGE: Preparing ComfyUI Manager"])
          bsW).get? 3 = some st2 ∧
      st2.status = "active") ∧
    (aitk_compute_stage_states AITK_STAGE_DEFS ["[ai-toolkit] creating venv"]).get? 1 =
      some aStageVenvActive ∧
    findMatchIdx [] "[ai-toolkit] installing requirements" AITK_STAGE_DEFS = some 2 ∧
    (∃ st1 st2,
      (aitk_compute_stage_states AITK_STAGE_DEFS
          (["[ai-toolkit] creating venv"] ++ ["[ai-toolkit] installing requirements"])).get? 1 =
        some st1 ∧
      st1.status = "done" ∧
      (aitk_compute_stage_states AITK_STAGE_DEFS
          (["[ai-toolkit] creating venv"] ++ ["[ai-toolkit] installing requirements"])).get? 2 =
        some st2 ∧
      st2.status = "active") :=
  ⟨by decide, by decide,
   compute_stage_states_forward_progress.1 envW STAGE_DEFS bsW
     ["STAGE: Installing sageattention"] "STAGE: Preparing ComfyUI Manager" 2
     stageWheelsActive (by decide) (by decide) (by decide),
   by decide, by decide,
   compute_stage_states_forward_progress.2 AITK_STAGE_DEFS
     ["[ai-toolkit] creating venv"] "[ai-toolkit] installing requirements" 1
     aStageVenvActive (by decide) (by decide) (by decide)⟩

/-! ## Item progress tracker (`_apply_backup_progress`) -/

/-- Python `a or b` on optional list indexes as produced by `dict.get`: a
present index `0` is falsy in Python, so the expression falls through to
`b` in that case as well as when `a` is `None`. -/
def pyOrIdx (a b : Option Nat) : Option Nat :=
  match a with
  | some i => if i = 0 then b else some i
  | none => b

/-- `node.get("status") or "pending"`: an absent or empty status becomes
`pending`. -/
def pyStatusInit (s : Option String) : String :=
  match s with
  | some v => if v = "" then "pending" else v
  | none => "pending"

/-- `index_by_key = {node["key"]: i for i, node in enumerate(nodes)}`
followed by `.get(k)`: the last entry wins on duplicate keys. -/
def index_by_key (nodes : List BackupNode) (k : String) : Option Nat :=
  nodes.enum.foldl (fun acc p => if p.2.key = k then some p.1 else acc) none

/-- `index_by_repo = {node["repo"]: i for i, node in enumerate(nodes) if
node.get("repo")}` followed by `.get(r)` (only truthy repo values are
indexed). -/
def index_by_repo (nodes : List BackupNode) (r : String) : Option Nat :=
  nodes.enum.foldl (fun acc p =>
    match p.2.repo with
    | some rv => if rv ≠ "" ∧ rv = r then some p.1 else acc
    | none => acc) none

/-- `nodes[i]["status"] = s` (out-of-range writes cannot occur in the
source; they are modelled as no-ops). -/
def setStatus (nodes : List BackupNode) (i : Nat) (s : String) : List BackupNode :=
  match nodes.get? i with
  | some n => nodes.set i { n with status := some s }
  | none => nodes

/-- `nodes[i]["status"]` read. -/
def statusAt (nodes : List BackupNode) (i : Nat) : Option String :=
  match nodes.get? i with
  | some n => n.status
  | none => none

/-- The implicit completion on move-on inside the begin handlers: a
different currently-installing node is demoted to done. -/
def demoteActive (nodes : List BackupNode) (active : Option Nat) (key : Nat) :
    List BackupNode :=
  match active with
  | some a =>
      if statusAt nodes a = some "installing" ∧ a ≠ key then setStatus nodes a "done"
      else nodes
  | none => nodes

/-- `str.split(",")` on a character list. -/
def splitCommaL : List Char → List (List Char)
  | [] => [[]]
  | c :: rest =>
    let r := splitCommaL rest
    if c = ',' then [] :: r
    else
      match r with
      | h :: t => (c :: h) :: t
      | [] => [[c]]

/-- Python `s.split(",")`. -/
def pySplitComma (s : String) : List String :=
  (splitCommaL s.data).map String.mk

/-- One iteration of the line loop of `_apply_backup_progress`: the event
shapes are tried in source order, each hit ending the line (`continue`),
including hits that resolve to no known node. -/
def applyLine (byKey byRepo : String → Option Nat)
    (st : List BackupNode × Option Nat) (line : String) :
    List BackupNode × Option Nat :=
  let nodes := st.1
  let active := st.2
  match RESTORE_CLONE_search line with
  | some g =>
    match byRepo (_normalize_repo g) with
    | some key => (setStatus (demoteActive nodes active key) key "installing", some key)
    | none => (nodes, active)
  | none =>
    match RESTORE_CNR_search line with
    | some g =>
      match byKey (pyStrip g) with
      | some key => (setStatus (demoteActive nodes active key) key "installing", some key)
      | none => (nodes, active)
    | none =>
      match RESTORE_SKIP_search line with
      | some g =>
        match pyOrIdx (byKey (pyStrip g)) (byRepo (_normalize_repo (pyStrip g))) with
        | some idx => (setStatus nodes idx "done", active)
        | none => (nodes, active)
      | none =>
        match RESTORE_ERR_search line with
        | some g =>
          match pyOrIdx (byKey (pyStrip g)) (byRepo (_normalize_repo (pyStrip g))) with
          | some idx => (setStatus nodes idx "failed", active)
          | none => (nodes, active)
        | none =>
          match RESTORE_FAIL_LIST_search line with
          | some g =>
            ((pySplitComma g).foldl (fun ns k =>
              match pyOrIdx (byKey (pyStrip k)) (byRepo (_normalize_repo (pyStrip k))) with
              | some idx => setStatus ns idx "failed"
              | none => ns) nodes, active)
          | none =>
            if RESTORE_DONE_search line then
              (nodes.map (fun n =>
                if n.status = some "pending" ∨ n.status = some "installing" then
                  { n with status := some "done" }
                else n), none)
            else (nodes, active)

/-- The scan loop of `_apply_backup_progress` over the tail lines. -/
def applyLines (byKey byRepo : String → Option Nat)
    (st : List BackupNode × Option Nat) (lines : List String) :
    List BackupNode × Option Nat :=
  lines.foldl (applyLine byKey byRepo) st

/-- The trailing promotion pass: while a node is still installing at index
`a`, every pending node before it is promoted to done. -/
def promoteBefore (nodes : List BackupNode) (a : Nat) : List BackupNode :=
  nodes.enum.map (fun p =>
    if p.1 < a ∧ p.2.status = some "pending" then { p.2 with status := some "done" }
    else p.2)

/-- `_apply_backup_progress(nodes, lines)` from `comfy_wait_page.py`. -/
def _apply_backup_progress (nodes : List BackupNode) (lines : List String) :
    List BackupNode :=
  if nodes.isEmpty then nodes
  else
    let byKey := index_by_key nodes
    let byRepo := index_by_repo nodes
    let nodes1 := nodes.map (fun n => { n with status := some (pyStatusInit n.status) })
    let st := applyLines byKey byRepo (nodes1, none) lines
    match st.2 with
    | some a =>
        if statusAt st.1 a = some "installing" then promoteBefore st.1 a else st.1
    | none => st.1

/-- Sample registry-sourced manifest node (`cnr` entry) with key `nodeX`. -/
def nodeCnrX : BackupNode :=
  { key := "nodeX", name := "nodeX", source := "cnr", version := some "1.0" }

/-- Sample registry-sourced manifest node with key `other`. -/
def nodeCnrOther : BackupNode :=
  { key := "other", name := "other", source := "cnr", version := some "1.0" }

/-- C6, bug evaluation: a begin event immediately followed by an
`already present` skip event for the same key leaves the item `installing`
when the item sits at manifest position 0 — `index_by_key.get(key) or
index_by_repo.get(...)` treats the falsy index `0` as a miss and drops the
skip event — while the same event pair at position 1 yields `done` as the
claim states. -/
theorem backup_skip_after_begin_eval :
    (_apply_backup_progress [nodeCnrX]
        ["[restore] cnr install nodeX", "[restore] nodeX already present"]).map
        (fun n => n.status) = [some "installing"] ∧
    (_apply_backup_progress [nodeCnrOther, nodeCnrX]
        ["[restore] cnr install nodeX", "[restore] nodeX already present"]).map
        (fun n => n.status) = [some "pending", some "done"] :=
  ⟨by decide, by decide⟩

/-- Sample nodes for the bulk-failure evaluation. -/
def nodeCnrAlpha : BackupNode :=
  { key := "alpha", name := "alpha", source := "cnr", version := some "" }

/-- Sample git-sourced manifest node with key `beta`. -/
def nodeGitBeta : BackupNode :=
  { key := "beta", name := "beta", source := "git",
    repo := some "https://example.com/u/beta" }

/-- Sample registry-sourced manifest node with key `gamma`. -/
def nodeCnrGamma : BackupNode :=
  { key := "gamma", name := "gamma", source := "cnr", version := some "" }

/-- C7, bug evaluation: the bulk-failure list `[alpha,beta]` marks `beta`
(position 1) failed and leaves the unlisted `gamma` untouched, but silently
drops `alpha` because its primary-key lookup resolves to the falsy index
`0` and the repo fallback misses. -/
theorem backup_bulk_failure_eval :
    (_apply_backup_progress [nodeCnrAlpha, nodeGitBeta, nodeCnrGamma]
        ["[restore][warn] some nodes failed: [alpha,beta]"]).map
        (fun n => n.status) = [some "pending", some "failed", some "pending"] := by
  decide

/-- Sample registry-sourced node used as filler in the C8 counterexample. -/
def nodeCnrAaa : BackupNode :=
  { key := "aaa", name := "aaa", source := "cnr", version := some "" }

/-- Sample git-sourced node with key `nodeX` used in the C8
counterexample. -/
def nodeGitX : BackupNode :=
  { key := "nodeX", name := "nodeX", source := "git",
    repo := some "https://h/u/nodeX" }

/-- C8, counterexample: within one replay, after the skip line the item at
position 1 is `done`, and the very next line — a clone (begin) event, not
the all-done marker — reverts it to `installing`. -/
theorem backup_progress_revert_cex :
    ((applyLines (index_by_key [nodeCnrAaa, nodeGitX])
        (index_by_repo [nodeCnrAaa, nodeGitX])
        ([{ nodeCnrAaa with status := some "pending" },
          { nodeGitX with status := some "pending" }], none)
        ["[restore] nodeX already present"]).1.map (fun n => n.status) =
      [some "pending", some "done"]) ∧
    ((applyLines (index_by_key [nodeCnrAaa, nodeGitX])
        (index_by_repo [nodeCnrAaa, nodeGitX])
        ([{ nodeCnrAaa with status := some "pending" },
          { nodeGitX with status := some "pending" }], none)
        ["[restore] nodeX already present", "[restore] cloning https://h/u/nodeX"]).1.map
        (fun n => n.status) = [some "pending", some "installing"]) ∧
    RESTORE_DONE_search "[restore] cloning https://h/u/nodeX" = false :=
  ⟨by decide, by decide, by decide⟩

theorem setStatus_get? (nodes : List BackupNode) (j : Nat) (s : String) (i : Nat) :
    (setStatus nodes j s).get? i =
      if i = j then (nodes.get? i).map (fun n => { n with status := some s })
      else nodes.get? i := by
  unfold setStatus
  cases hj : nodes.get? j with
  | none =>
      by_cases hij : i = j
      · subst hij
        rw [if_pos rfl, hj]
        rfl
      · rw [if_neg hij]
  | some nj =>
      by_cases hij : i = j
      · subst hij
        rw [if_pos rfl, List.get?_set_eq, hj]
        rfl
      · rw [if_neg hij, List.get?_set_ne _ _ (fun h => hij h.symm)]

theorem setStatus_get?_inv (nodes : List BackupNode) (j : Nat) (s : String)
    (i : Nat) (n' : BackupNode)
    (h : (setStatus nodes j s).get? i = some n') :
    ∃ m, nodes.get? i = some m ∧ (n' = m ∨ (i = j ∧ n'.status = some s)) := by
  rw [setStatus_get?] at h
  by_cases hij : i = j
  · rw [if_pos hij] at h
    rcases Option.map_eq_some'.mp h with ⟨m, hm, hval⟩
    refine ⟨m, hm, Or.inr ⟨hij, ?_⟩⟩
    rw [← hval]
  · rw [if_neg hij] at h
    exact ⟨n', h, Or.inl rfl⟩

theorem demote_get?_inv (nodes : List BackupNode) (active : Option Nat)
    (key : Nat) (i : Nat) (n' : BackupNode)
    (h : (demoteActive nodes active key).get? i = some n') :
    ∃ m, nodes.get? i = some m ∧ (n' = m ∨ n'.status = some "done") := by
  unfold demoteActive at h
  cases active with
  | none => exact ⟨n', h, Or.inl rfl⟩
  | some a =>
      dsimp only at h
      by_cases hcond : statusAt nodes a = some "installing" ∧ a ≠ key
      · rw [if_pos hcond] at h
        rcases setStatus_get?_inv _ _ _ _ _ h with ⟨m, hm, hc1⟩
        rcases hc1 with h1 | ⟨_, h1⟩
        · exact ⟨m, hm, Or.inl h1⟩
        · exact ⟨m, hm, Or.inr h1⟩
      · rw [if_neg hcond] at h
        exact ⟨n', h, Or.inl rfl⟩

theorem failFold_get?_inv (byKey byRepo : String → Option Nat) :
    ∀ (keys : List String) (nodes : List BackupNode) (i : Nat) (n' : BackupNode),
      ((keys.foldl (fun ns k =>
        match pyOrIdx (byKey (pyStrip k)) (byRepo (_normalize_repo (pyStrip k))) with
        | some idx => setStatus ns idx "failed"
        | none => ns) nodes).get? i = some n') →
      ∃ m, nodes.get? i = some m ∧ (n' = m ∨ n'.status = some "failed")
  | [], nodes, i, n', h => ⟨n', h, Or.inl rfl⟩
  | k :: rest, nodes, i, n', h => by
      simp only [List.foldl_cons] at h
      rcases failFold_get?_inv byKey byRepo rest _ i n' h with ⟨m2, hm2, hcase2⟩
      cases hidx : pyOrIdx (byKey (pyStrip k)) (byRepo (_normalize_repo (pyStrip k))) with
      | none =>
          rw [hidx] at hm2
          exact ⟨m2, hm2, hcase2⟩
      | some idx =>
          rw [hidx] at hm2
          dsimp only at hm2
          rcases setStatus_get?_inv _ _ _ _ _ hm2 with ⟨m, hm, hc1⟩
          refine ⟨m, hm, ?_⟩
          rcases hcase2 with h2 | h2
          · subst h2
            rcases hc1 with h1 | ⟨_, h1⟩
            · exact Or.inl h1
            · exact Or.inr h1
          · exact Or.inr h2

/-- Does `line` carry a begin event (clone or cnr-install, in source
priority order) that resolves to node index `i`? -/
def beginTargets (byKey byRepo : String → Option Nat) (line : String)
    (i : Nat) : Bool :=
  match RESTORE_CLONE_search line with
  | some g => byRepo (_normalize_repo g) == some i
  | none =>
    match RESTORE_CNR_search line with
    | some g => byKey (pyStrip g) == some i
    | none => false

/-- C8 (amended): per item and per line event of the replay loop, a status
never returns to `pending` once it has left it; and an item that is `done`
or `failed` stays in {done, failed} under every line event except a begin
event (clone / cnr install) that resolves to that very item, which re-marks
it `installing`.  The original claim's unconditional "once done or failed,
no later line event reverts it (all-done marker apart)" fails exactly for
such begin events — see the counterexample. -/
theorem backup_item_status_monotone :
    ∀ (byKey byRepo : String → Option Nat) (nodes : List BackupNode)
      (active : Option Nat) (line : String) (i : Nat) (n n' : BackupNode),
      nodes.get? i = some n →
      (applyLine byKey byRepo (nodes, active) line).1.get? i = some n' →
      ((n.status ≠ some "pending" → n'.status ≠ some "pending") ∧
       ((n.status = some "done" ∨ n.status = some "failed") →
         beginTargets byKey byRepo line i = false →
         (n'.status = some "done" ∨ n'.status = some "failed"))) := by
  intro byKey byRepo nodes active line i n n' hn hn'
  simp only [applyLine] at hn'
  cases hc : RESTORE_CLONE_search line with
  | some g =>
      rw [hc] at hn'
      dsimp only at hn'
      cases hr : byRepo (_normalize_repo g) with
      | some key =>
          rw [hr] at hn'
          dsimp only at hn'
          rcases setStatus_get?_inv _ _ _ _ _ hn' with ⟨m2, hm2, hcase2⟩
          rcases demote_get?_inv _ _ _ _ _ hm2 with ⟨m, hm, hcase1⟩
          have hmn : m = n := by
            rw [hn] at hm
            exact (Option.some.inj hm).symm
          subst hmn
          constructor
          · intro hnp
            rcases hcase2 with h2 | ⟨_, h2⟩
            · subst h2
              rcases hcase1 with h1 | h1
              · subst h1; exact hnp
              · simp [h1]
            · simp [h2]
          · intro hdf hbt
            have hki : ¬ ((some key : Option Nat) = some i) := by
              unfold beginTargets at hbt
              rw [hc] at hbt
              dsimp only at hbt
              rw [hr] at hbt
              exact beq_eq_false_iff_ne.mp hbt
            rcases hcase2 with h2 | ⟨hik, _⟩
            · subst h2
              rcases hcase1 with h1 | h1
              · subst h1; exact hdf
              · exact Or.inl h1
            · exact absurd (by rw [hik] : (some key : Option Nat) = some i) hki
      | none =>
          rw [hr] at hn'
          dsimp only at hn'
          have hne : n' = n := by
            rw [hn] at hn'
            exact (Option.some.inj hn').symm
          subst hne
          exact ⟨fun h => h, fun h _ => h⟩
  | none =>
      rw [hc] at hn'
      dsimp only at hn'
      cases hc2 : RESTORE_CNR_search line with
      | some g =>
          rw [hc2] at hn'
          dsimp only at hn'
          cases hr : byKey (pyStrip g) with
          | some key =>
              rw [hr] at hn'
              dsimp only at hn'
              rcases setStatus_get?_inv _ _ _ _ _ hn' with ⟨m2, hm2, hcase2⟩
              rcases demote_get?_inv _ _ _ _ _ hm2 with ⟨m, hm, hcase1⟩
              have hmn : m = n := by
                rw [hn] at hm
                exact (Option.some.inj hm).symm
              subst hmn
              constructor
              · intro hnp
                rcases hcase2 with h2 | ⟨_, h2⟩
                · subst h2
                  rcases hcase1 with h1 | h1
                  · subst h1; exact hnp
                  · simp [h1]
                · simp [h2]
              · intro hdf hbt
                have hki : ¬ ((some key : Option Nat) = some i) := by
                  unfold beginTargets at hbt
                  rw [hc] at hbt
                  dsimp only at hbt
                  rw [hc2] at hbt
                  dsimp only at hbt
                  rw [hr] at hbt
                  exact beq_eq_false_iff_ne.mp hbt
                rcases hcase2 with h2 | ⟨hik, _⟩
                · subst h2
                  rcases hcase1 with h1 | h1
                  · subst h1; exact hdf
                  · exact Or.inl h1
                · exact absurd (by rw [hik] : (some key : Option Nat) = some i) hki
          | none =>
              rw [hr] at hn'
              dsimp only at hn'
              have hne : n' = n := by
                rw [hn] at hn'
                exact (Option.some.inj hn').symm
              subst hne
              exact ⟨fun h => h, fun h _ => h⟩
      | none =>
          rw [hc2] at hn'
          dsimp only at hn'
          cases hc3 : RESTORE_SKIP_search line with
          | some g =>
              rw [hc3] at hn'
              dsimp only at hn'
              cases hio : pyOrIdx (byKey (pyStrip g))
                  (byRepo (_normalize_repo (pyStrip g))) with
              | some idx =>
                  rw [hio] at hn'
                  dsimp only at hn'
                  rcases setStatus_get?_inv _ _ _ _ _ hn' with ⟨m, hm, hcase⟩
                  have hmn : m = n := by
                    rw [hn] at hm
                    exact (Option.some.inj hm).symm
                  subst hmn
                  constructor
                  · intro hnp
                    rcases hcase with h | ⟨_, h⟩
                    · subst h; exact hnp
                    · simp [h]
                  · intro hdf _
                    rcases hcase with h | ⟨_, h⟩
                    · subst h; exact hdf
                    · exact Or.inl h
              | none =>
                  rw [hio] at hn'
                  dsimp only at hn'
                  have hne : n' = n := by
                    rw [hn] at hn'
                    exact (Option.some.inj hn').symm
                  subst hne
                  exact ⟨fun h => h, fun h _ => h⟩
          | none =>
              rw [hc3] at hn'
              dsimp only at hn'
              cases hc4 : RESTORE_ERR_search line with
              | some g =>
                  rw [hc4] at hn'
                  dsimp only at hn'
                  cases hio : pyOrIdx (byKey (pyStrip g))
                      (byRepo (_normalize_repo (pyStrip g))) with
                  | some idx =>
                      rw [hio] at hn'
                      dsimp only at hn'
                      rcases setStatus_get?_inv _ _ _ _ _ hn' with ⟨m, hm, hcase⟩
                      have hmn : m = n := by
                        rw [hn] at hm
                        exact (Option.some.inj hm).symm
                      subst hmn
                      constructor
                      · intro hnp
                        rcases hcase with h | ⟨_, h⟩
                        · subst h; exact hnp
                        · simp [h]
                      · intro hdf _
                        rcases hcase with h | ⟨_, h⟩
                        · subst h; exact hdf
                        · exact Or.inr h
                  | none =>
                      rw [hio] at hn'
                      dsimp only at hn'
                      have hne : n' = n := by
                        rw [hn] at hn'
                        exact (Option.some.inj hn').symm
                      subst hne
                      exact ⟨fun h => h, fun h _ => h⟩
              | none =>
                  rw [hc4] at hn'
                  dsimp only at hn'
                  cases hc5 : RESTORE_FAIL_LIST_search line with
                  | some g =>
                      rw [hc5] at hn'
                      dsimp only at hn'
                      rcases failFold_get?_inv byKey byRepo (pySplitComma g)
                          nodes i n' hn' with ⟨m, hm, hcase⟩
                      have hmn : m = n := by
                        rw [hn] at hm
                        exact (Option.some.inj hm).symm
                      subst hmn
                      constructor
                      · intro hnp
                        rcases hcase with h | h
                        · subst h; exact hnp
                        · simp [h]
                      · intro hdf _
                        rcases hcase with h | h
                        · subst h; exact hdf
                        · exact Or.inr h
                  | none =>
                      rw [hc5] at hn'
                      dsimp only at hn'
                      cases hd : RESTORE_DONE_search line with
                      | true =>
                          rw [hd] at hn'
                          simp only [if_true] at hn'
                          rw [List.get?_map, hn] at hn'
                          simp only [Option.map_some'] at hn'
                          have hfn := Option.some.inj hn'
                          by_cases hcond : (n.status = some "pending" ∨
                              n.status = some "installing")
                          · rw [if_pos hcond] at hfn
                            constructor
                            · intro _
                              simp [← hfn]
                            · intro hdf _
                              left
                              rw [← hfn]
                          · rw [if_neg hcond] at hfn
                            subst hfn
                            exact ⟨fun h => h, fun h _ => h⟩
                      | false =>
                          rw [hd] at hn'
                          simp only [Bool.false_eq_true, if_false] at hn'
                          have hne : n' = n := by
                            rw [hn] at hn'
                            exact (Option.some.inj hn').symm
                          subst hne
                          exact ⟨fun h => h, fun h _ => h⟩

/-- Witness for the amended C8: a skip event for an item that is already
done keeps it out of `pending` and inside {done, failed}. -/
theorem backup_item_status_monotone_witness :
    ([{ nodeCnrAaa with status := some "pending" },
      { nodeGitX with status := some "done" }].get? 1 =
        some ({ nodeGitX with status := some "done" } : BackupNode)) ∧
    ((applyLine (index_by_key [nodeCnrAaa, nodeGitX])
        (index_by_repo [nodeCnrAaa, nodeGitX])
        ([{ nodeCnrAaa with status := some "pending" },
          { nodeGitX with status := some "done" }], none)
        "[restore] nodeX already present").1.get? 1 =
        some ({ nodeGitX with status := some "done" } : BackupNode)) ∧
    (({ nodeGitX with status := some "done" } : BackupNode).status ≠ some "pending" →
      ({ nodeGitX with status := some "done" } : BackupNode).status ≠ some "pending") ∧
    ((({ nodeGitX with status := some "done" } : BackupNode).status = some "done" ∨
        ({ nodeGitX with status := some "done" } : BackupNode).status = some "failed") →
      beginTargets (index_by_key [nodeCnrAaa, nodeGitX])
        (index_by_repo [nodeCnrAaa, nodeGitX]) "[restore] nodeX already present" 1 = false →
      (({ nodeGitX with status := some "done" } : BackupNode).status = some "done" ∨
        ({ nodeGitX with status := some "done" } : BackupNode).status = some "failed")) :=
  ⟨by decide, by decide,
   (backup_item_status_monotone (index_by_key [nodeCnrAaa, nodeGitX])
     (index_by_repo [nodeCnrAaa, nodeGitX])
     [{ nodeCnrAaa with status := some "pending" },
      { nodeGitX with status := some "done" }] none
     "[restore] nodeX already present" 1
     { nodeGitX with status := some "done" } { nodeGitX with status := some "done" }
     (by decide) (by decide)).1,
   (backup_item_status_monotone (index_by_key [nodeCnrAaa, nodeGitX])
     (index_by_repo [nodeCnrAaa, nodeGitX])
     [{ nodeCnrAaa with status := some "pending" },
      { nodeGitX with status := some "done" }] none
     "[restore] nodeX already present" 1
     { nodeGitX with status := some "done" } { nodeGitX with status := some "done" }
     (by decide) (by decide)).2⟩

/-! ## Manifest cache and `build_backup_state`

Python dicts are mutable heap objects and `_SNAPSHOT_CACHE` stores
references to them, so the module state is modelled as a heap (`Store`)
of node dicts addressed by position, with the cache holding addresses.
The per-request copies `[dict(node) for node in _load_backup_nodes()]`
become fresh addresses holding the cached values, and the in-place status
writes of `_apply_backup_progress` become a write-back to exactly those
fresh addresses. -/

/-- Parsed value of one `git_custom_nodes` manifest entry. -/
structure GitNodeData where
  disabled : Bool := false
  name : Option String := none

/-- The parsed snapshot manifest (`yaml.safe_load` result). -/
structure Manifest where
  git_custom_nodes : List (String × GitNodeData) := []
  cnr_custom_nodes : List (String × Option String) := []

/-- The node dict list `_load_backup_nodes` builds from a parsed manifest:
git entries not marked disabled, then registry (`cnr`) entries. -/
def manifestNodes (m : Manifest) : List BackupNode :=
  (m.git_custom_nodes.filter (fun p => !p.2.disabled)).map (fun p =>
    { key := _repo_label p.1
      name := match p.2.name with
        | some l => if l = "" then _repo_label p.1 else l
        | none => _repo_label p.1
      source := "git"
      repo := some (_normalize_repo p.1) })
  ++ m.cnr_custom_nodes.map (fun p =>
    { key := p.1, name := p.1, source := "cnr", version := some (p.2.getD "") })

/-- Heap of node dicts, addressed by position. -/
abbrev Store := List BackupNode

/-- `_SNAPSHOT_CACHE` (mtime + node dict references) plus the heap. -/
structure GlobalState where
  store : Store
  mtime : Option Nat
  cache_nodes : List Nat

/-- The snapshot file as `_load_backup_nodes` sees it: absent, or present
with an mtime and either a parse result or `none` for a read/parse/import
failure. -/
abbrev SnapshotFile := Option (Nat × Option Manifest)

/-- `_load_backup_nodes()` from `comfy_wait_page.py`, with the filesystem
and the module cache explicit; returns the addresses of the cached node
dicts.  A missing file resets the cache; a matching mtime returns the
cached references; a parse failure returns no nodes and leaves the cache
untouched; otherwise fresh dicts are allocated and cached. -/
def _load_backup_nodes (file : SnapshotFile) (gs : GlobalState) :
    List Nat × GlobalState :=
  match file with
  | none => ([], { gs with mtime := none, cache_nodes := [] })
  | some (mt, pm) =>
    if gs.mtime = some mt then (gs.cache_nodes, gs)
    else
      match pm with
      | none => ([], gs)
      | some m =>
        let ns := manifestNodes m
        let addrs := List.range' gs.store.length ns.length
        (addrs, { store := gs.store ++ ns, mtime := some mt, cache_nodes := addrs })

/-- Write the given values to the given addresses: the observable effect of
`_apply_backup_progress` mutating the dicts handed to it. -/
def writeBack (store : Store) : List Nat → List BackupNode → Store
  | [], _ => store
  | _ :: _, [] => store
  | a :: rest, v :: vs => writeBack (store.set a v) rest vs

/-- The message string of `build_backup_state`. -/
def backupMessage (env : EnvInfo) (nodes : List BackupNode) : String :=
  if env.backup_repo.getD "" = "" then "Backup is not set."
  else if !env.restore_enabled then "Backup is configured but RESTORE_BACKUP=0."
  else if nodes.isEmpty then "Waiting for backup snapshot manifest..."
  else
    toString (nodes.filter (fun n => n.status = some "done")).length ++ "/" ++
      toString nodes.length ++ " nodes processed from " ++
      env.backup_repo.getD "" ++ "."

/-- `build_backup_state(lines)` from `comfy_wait_page.py`, with `ENV_INFO`,
the snapshot file and the module cache explicit. -/
def build_backup_state (env : EnvInfo) (file : SnapshotFile)
    (gs : GlobalState) (lines : List String) : BackupState × GlobalState :=
  let enabled := env.restore_enabled && env.backup_repo.getD "" ≠ ""
  if enabled then
    let r := _load_backup_nodes file gs
    let gs1 := r.2
    let vals := r.1.filterMap gs1.store.get?
    let copyAddrs := List.range' gs1.store.length vals.length
    let store2 := gs1.store ++ vals
    let has_manifest := !vals.isEmpty
    let nodes := _apply_backup_progress vals lines
    let store3 := writeBack store2 copyAddrs nodes
    ({ enabled := true, repo := env.backup_repo, nodes := nodes,
       has_manifest := has_manifest, message := backupMessage env nodes },
     { gs1 with store := store3 })
  else
    ({ enabled := false, repo := env.backup_repo, nodes := [],
       has_manifest := false, message := backupMessage env [] }, gs)

theorem writeBack_get?_notin :
    ∀ (addr_list : List Nat) (vals : List BackupNode) (store : Store) (a : Nat),
      a ∉ addr_list →
      (writeBack store addr_list vals).get? a = store.get? a
  | [], _, _, _, _ => by simp [writeBack]
  | _ :: _, [], _, _, _ => by simp [writeBack]
  | b :: rest, v :: vs, store, a, h => by
      simp only [writeBack]
      rw [writeBack_get?_notin rest vs (store.set b v) a
        (fun hm => h (List.mem_cons_of_mem b hm))]
      exact List.get?_set_ne _ _ (Ne.symm (List.ne_of_not_mem_cons h))

/-- Reading below the base of the copy region is unaffected by the
allocation of the copies and the write-back of their final values. -/
theorem store_frame_lt (s : Store) (vals nodes : List BackupNode) (a : Nat)
    (ha : a < s.length) :
    (writeBack (s ++ vals) (List.range' s.length vals.length) nodes).get? a =
      s.get? a := by
  rw [writeBack_get?_notin _ _ _ a ?notin]
  · exact List.get?_append ha
  case notin =>
    intro hmem
    have := (List.mem_range'_1.mp hmem).1
    omega

theorem manifestNodes_status_none (m : Manifest) :
    ∀ n ∈ manifestNodes m, n.status = none := by
  intro n hn
  unfold manifestNodes at hn
  rcases List.mem_append.mp hn with h | h
  · rcases List.mem_map.mp h with ⟨p, _, hp⟩
    rw [← hp]
  · rcases List.mem_map.mp h with ⟨p, _, hp⟩
    rw [← hp]

theorem load_none (gs : GlobalState) :
    _load_backup_nodes none gs = ([], { gs with mtime := none, cache_nodes := [] }) := rfl

theorem load_hit (gs : GlobalState) (mt : Nat) (pm : Option Manifest)
    (h : gs.mtime = some mt) :
    _load_backup_nodes (some (mt, pm)) gs = (gs.cache_nodes, gs) := by
  simp [_load_backup_nodes, h]

theorem load_fail (gs : GlobalState) (mt : Nat) (h : gs.mtime ≠ some mt) :
    _load_backup_nodes (some (mt, none)) gs = ([], gs) := by
  simp [_load_backup_nodes, h]

theorem load_rebuild (gs : GlobalState) (mt : Nat) (m : Manifest)
    (h : gs.mtime ≠ some mt) :
    _load_backup_nodes (some (mt, some m)) gs =
      (List.range' gs.store.length (manifestNodes m).length,
       { store := gs.store ++ manifestNodes m, mtime := some mt,
         cache_nodes := List.range' gs.store.length (manifestNodes m).length }) := by
  simp [_load_backup_nodes, h]

theorem build_disabled (env : EnvInfo) (file : SnapshotFile)
    (gs : GlobalState) (lines : List String)
    (hen : (env.restore_enabled && env.backup_repo.getD "" ≠ "") = false) :
    build_backup_state env file gs lines =
      ({ enabled := false, repo := env.backup_repo, nodes := [],
         has_manifest := false, message := backupMessage env [] }, gs) := by
  simp only [build_backup_state, hen, Bool.false_eq_true, if_false]

theorem build_enabled (env : EnvInfo) (file : SnapshotFile)
    (gs : GlobalState) (lines : List String)
    (hen : (env.restore_enabled && env.backup_repo.getD "" ≠ "") = true)
    (addrs : List Nat) (gs1 : GlobalState)
    (hload : _load_backup_nodes file gs = (addrs, gs1)) :
    build_backup_state env file gs lines =
      ({ enabled := true
         repo := env.backup_repo
         nodes := _apply_backup_progress (addrs.filterMap gs1.store.get?) lines
         has_manifest := !(addrs.filterMap gs1.store.get?).isEmpty
         message := backupMessage env
                      (_apply_backup_progress (addrs.filterMap gs1.store.get?) lines) },
       { gs1 with
         store := writeBack (gs1.store ++ addrs.filterMap gs1.store.get?)
                    (List.range' gs1.store.length
                      (addrs.filterMap gs1.store.get?).length)
                    (_apply_backup_progress (addrs.filterMap gs1.store.get?) lines) }) := by
  simp only [build_backup_state, hen, if_true, hload]

/-- Reading the freshly allocated copy region right after allocation
returns exactly the allocated values. -/
theorem filterMap_get?_range' :
    ∀ (ns s : List BackupNode),
      (List.range' s.length ns.length).filterMap (s ++ ns).get? = ns
  | [], _ => rfl
  | v :: vs, s => by
      simp only [List.length_cons]
      rw [List.range'_succ _ _ _]
      simp only [List.length_cons, List.filterMap_cons]
      have h1 : (s ++ v :: vs).get? s.length = some v := by
        rw [List.get?_append_right (le_refl _)]
        simp
      rw [h1]
      have h2 : s ++ v :: vs = (s ++ [v]) ++ vs := by simp
      have h3 : s.length + 1 = (s ++ [v]).length := by simp
      rw [h2, h3, filterMap_get?_range' vs (s ++ [v])]

/-- A second call whose load hits the cache returns the payload computed
from the values its cached addresses hold in any store that agrees with
`st1` on those addresses. -/
theorem build_second_hit (env : EnvInfo) (mt : Nat) (pm : Option Manifest)
    (lines : List String) (gs2 : GlobalState) (addrs : List Nat) (st1 : Store)
    (hen : (env.restore_enabled && env.backup_repo.getD "" ≠ "") = true)
    (h1 : gs2.mtime = some mt) (h2 : gs2.cache_nodes = addrs)
    (h3 : ∀ a ∈ addrs, gs2.store.get? a = st1.get? a) :
    (build_backup_state env (some (mt, pm)) gs2 lines).1 =
      { enabled := true
        repo := env.backup_repo
        nodes := _apply_backup_progress (addrs.filterMap st1.get?) lines
        has_manifest := !(addrs.filterMap st1.get?).isEmpty
        message := backupMessage env
                     (_apply_backup_progress (addrs.filterMap st1.get?) lines) } := by
  rw [build_enabled env _ gs2 lines hen _ _ (load_hit gs2 mt pm h1)]
  dsimp only
  rw [h2, List.filterMap_congr h3]

/-- C9: `build_backup_state` never mutates node dicts that existed in the
module store before the call (in particular the `_SNAPSHOT_CACHE["nodes"]`
entries); cached dicts that carry no `status` key still carry none after
any call; and an immediate second poll over the same snapshot file (same
mtime) and the same tail lines returns the very same payload — progress is
written only to the per-request copies and never leaks across polls
through the cache. -/
theorem build_backup_state_cache_frame
    (env : EnvInfo) (file : SnapshotFile) (gs : GlobalState)
    (lines : List String)
    (hwf : ∀ a ∈ gs.cache_nodes, a < gs.store.length) :
    (∀ a, a < gs.store.length →
      (build_backup_state env file gs lines).2.store.get? a = gs.store.get? a) ∧
    ((∀ a n, a ∈ gs.cache_nodes → gs.store.get? a = some n → n.status = none) →
      ∀ a n, a ∈ (build_backup_state env file gs lines).2.cache_nodes →
        (build_backup_state env file gs lines).2.store.get? a = some n →
        n.status = none) ∧
    (build_backup_state env file (build_backup_state env file gs lines).2 lines).1 =
      (build_backup_state env file gs lines).1 := by
  by_cases hen : (env.restore_enabled && env.backup_repo.getD "" ≠ "") = true
  case neg =>
    have hen' : (env.restore_enabled && env.backup_repo.getD "" ≠ "") = false := by
      simpa using hen
    rw [build_disabled env file gs lines hen']
    refine ⟨fun a _ => rfl, fun h => h, ?_⟩
    rw [build_disabled env file gs lines hen']
  case pos =>
    cases file with
    | none =>
        rw [build_enabled env none gs lines hen _ _ (load_none gs)]
        refine ⟨?_, ?_, ?_⟩
        · intro a ha
          simp [writeBack]
        · intro _ a n hmem _
          simp at hmem
        · rw [build_enabled env none _ lines hen _ _ (load_none _)]
          rfl
    | some fp =>
        obtain ⟨mt, pm⟩ := fp
        by_cases hmt : gs.mtime = some mt
        · rw [build_enabled env _ gs lines hen _ _ (load_hit gs mt pm hmt)]
          refine ⟨?_, ?_, ?_⟩
          · intro a ha
            exact store_frame_lt gs.store _ _ a ha
          · intro hinv a n hmem hget
            dsimp only at hmem hget
            have ha := hwf a hmem
            rw [store_frame_lt gs.store _ _ a ha] at hget
            exact hinv a n hmem hget
          · exact build_second_hit env mt pm lines _ gs.cache_nodes gs.store hen
              hmt rfl (fun a hm => store_frame_lt gs.store _ _ a (hwf a hm))
        · cases pm with
          | none =>
              have hmt' : gs.mtime ≠ some mt := hmt
              rw [build_enabled env _ gs lines hen _ _ (load_fail gs mt hmt')]
              refine ⟨?_, ?_, ?_⟩
              · intro a ha
                simp [writeBack]
              · intro hinv a n hmem hget
                dsimp only at hmem hget
                have hget' : gs.store.get? a = some n := by
                  simpa [writeBack] using hget
                exact hinv a n hmem hget'
              · have h1 : ∀ (gs2 : GlobalState), gs2.mtime = gs.mtime →
                    (build_backup_state env (some (mt, none)) gs2 lines).1 =
                      { enabled := true
                        repo := env.backup_repo
                        nodes := _apply_backup_progress [] lines
                        has_manifest := !([] : List BackupNode).isEmpty
                        message := backupMessage env
                                     (_apply_backup_progress [] lines) } := by
                  intro gs2 hm2
                  rw [build_enabled env _ gs2 lines hen _ _
                    (load_fail gs2 mt (by rw [hm2]; exact hmt'))]
                  rfl
                exact h1 _ rfl
          | some m =>
              have hmt' : gs.mtime ≠ some mt := hmt
              rw [build_enabled env _ gs lines hen _ _ (load_rebuild gs mt m hmt')]
              have hvals : (List.range' gs.store.length
                  (manifestNodes m).length).filterMap
                  (gs.store ++ manifestNodes m).get? = manifestNodes m :=
                filterMap_get?_range' (manifestNodes m) gs.store
              refine ⟨?_, ?_, ?_⟩
              · intro a ha
                dsimp only
                rw [store_frame_lt (gs.store ++ manifestNodes m) _ _ a
                  (by rw [List.length_append]; omega)]
                exact List.get?_append ha
              · intro _ a n hmem hget
                dsimp only at hmem hget
                have hab := List.mem_range'_1.mp hmem
                have halt : a < (gs.store ++ manifestNodes m).length := by
                  rw [List.length_append]; omega
                rw [store_frame_lt (gs.store ++ manifestNodes m) _ _ a halt] at hget
                rw [List.get?_append_right hab.1] at hget
                exact manifestNodes_status_none m n (List.get?_mem hget)
              · refine build_second_hit env mt (some m) lines _
                  (List.range' gs.store.length (manifestNodes m).length)
                  (gs.store ++ manifestNodes m) hen rfl rfl ?_
                intro a hm
                have hab := List.mem_range'_1.mp hm
                exact store_frame_lt (gs.store ++ manifestNodes m) _ _ a
                  (by rw [List.length_append]; omega)

/-- Concrete module state for the C9 witness: one cached node dict (no
status key) at address 0, cache mtime 5. -/
def gsW : GlobalState := { store := [nodeGitX], mtime := some 5, cache_nodes := [0] }

/-- Concrete snapshot file for the C9 witness: mtime 5 (a cache hit) with
an empty parsed manifest. -/
def fileW : SnapshotFile := some (5, some {})

/-- Witness for C9: a poll that marks the copied node `installing` leaves
the cached dict untouched and statusless, and a second identical poll
returns the same payload. -/
theorem build_backup_state_cache_frame_witness :
    (∀ a ∈ gsW.cache_nodes, a < gsW.store.length) ∧
    (build_backup_state envW fileW gsW
        ["[restore] cloning https://h/u/nodeX"]).2.store.get? 0 =
      gsW.store.get? 0 ∧
    nodeGitX.status = none ∧
    (build_backup_state envW fileW
        (build_backup_state envW fileW gsW ["[restore] cloning https://h/u/nodeX"]).2
        ["[restore] cloning https://h/u/nodeX"]).1 =
      (build_backup_state envW fileW gsW ["[restore] cloning https://h/u/nodeX"]).1 :=
  ⟨by decide,
   (build_backup_state_cache_frame envW fileW gsW
     ["[restore] cloning https://h/u/nodeX"] (by decide)).1 0 (by decide),
   (build_backup_state_cache_frame envW fileW gsW
     ["[restore] cloning https://h/u/nodeX"] (by decide)).2.1
     (by
       intro a n ha hg
       have ha' : a = 0 := by simpa [gsW] using ha
       subst ha'
       have h2 : some nodeGitX = some n := by rw [← hg]; rfl
       rw [← Option.some.inj h2]
       rfl)
     0 nodeGitX (by decide) (by decide),
   (build_backup_state_cache_frame envW fileW gsW
     ["[restore] cloning https://h/u/nodeX"] (by decide)).2.2⟩

/-! ## Log tail readers -/

/-- Lossy UTF-8 decoding, fuel-indexed (the fuel is the byte count, and
every step consumes at least one byte). -/
def utf8DecodeIgnoreAux : Nat → List Nat → List Char
  | 0, _ => []
  | _ + 1, [] => []
  | fuel + 1, b :: rest =>
    if b < 0x80 then Char.ofNat b :: utf8DecodeIgnoreAux fuel rest
    else if b < 0xC2 then utf8DecodeIgnoreAux fuel rest
    else if b < 0xE0 then
      match rest with
      | [] => []
      | b2 :: rest2 =>
        if 0x80 ≤ b2 ∧ b2 < 0xC0 then
          Char.ofNat ((b - 0xC0) * 64 + (b2 - 0x80)) :: utf8DecodeIgnoreAux fuel rest2
        else utf8DecodeIgnoreAux fuel (b2 :: rest2)
    else if b < 0xF0 then
      match rest with
      | [] => []
      | b2 :: rest2 =>
        if (if b = 0xE0 then 0xA0 ≤ b2 ∧ b2 < 0xC0
            else if b = 0xED then 0x80 ≤ b2 ∧ b2 < 0xA0
            else 0x80 ≤ b2 ∧ b2 < 0xC0) then
          match rest2 with
          | [] => []
          | b3 :: rest3 =>
            if 0x80 ≤ b3 ∧ b3 < 0xC0 then
              Char.ofNat ((b - 0xE0) * 4096 + (b2 - 0x80) * 64 + (b3 - 0x80)) ::
                utf8DecodeIgnoreAux fuel rest3
            else utf8DecodeIgnoreAux fuel (b3 :: rest3)
        else utf8DecodeIgnoreAux fuel (b2 :: rest2)
    else if b < 0xF5 then
      match rest with
      | [] => []
      | b2 :: rest2 =>
        if (if b = 0xF0 then 0x90 ≤ b2 ∧ b2 < 0xC0
            else if b = 0xF4 then 0x80 ≤ b2 ∧ b2 < 0x90
            else 0x80 ≤ b2 ∧ b2 < 0xC0) then
          match rest2 with
          | [] => []
          | b3 :: rest3 =>
            if 0x80 ≤ b3 ∧ b3 < 0xC0 then
              match rest3 with
              | [] => []
              | b4 :: rest4 =>
                if 0x80 ≤ b4 ∧ b4 < 0xC0 then
                  Char.ofNat ((b - 0xF0) * 262144 + (b2 - 0x80) * 4096 +
                    (b3 - 0x80) * 64 + (b4 - 0x80)) :: utf8DecodeIgnoreAux fuel rest4
                else utf8DecodeIgnoreAux fuel (b4 :: rest4)
            else utf8DecodeIgnoreAux fuel (b3 :: rest3)
        else utf8DecodeIgnoreAux fuel (b2 :: rest2)
    else utf8DecodeIgnoreAux fuel rest

/-- `bytes.decode("utf-8", errors="ignore")`. -/
def utf8DecodeIgnore (l : List Nat) : List Char :=
  utf8DecodeIgnoreAux l.length l

/-- The line-terminator set of Python `str.splitlines()`. -/
def lineBreakChar (c : Char) : Bool :=
  c = '\n' || c = '\r' || c = '\x0b' || c = '\x0c' || c = '\x1c' ||
    c = '\x1d' || c = '\x1e' || c = '\x85' || c = '\u2028' || c = '\u2029'

/-- Worker for `str.splitlines()` with the reversed current segment as
accumulator. -/
def pySplitlinesAux : List Char → List Char → List String
  | [], acc => if acc.isEmpty then [] else [String.mk acc.reverse]
  | '\r' :: '\n' :: rest, acc => String.mk acc.reverse :: pySplitlinesAux rest []
  | c :: rest, acc =>
    if lineBreakChar c then String.mk acc.reverse :: pySplitlinesAux rest []
    else pySplitlinesAux rest (c :: acc)

/-- Python `str.splitlines()`. -/
def pySplitlines (cs : List Char) : List String :=
  pySplitlinesAux cs []

/-- `tail_lines(path, max_bytes)` from `comfy_wait_page.py`, with the file
system explicit: `none` models a path that cannot be opened (the `OSError`
handler returns `[]`), `some bytes` a readable file's content.  The file is
seeked to `max(size - max_bytes, 0)`, read to the end, decoded lossily and
split into lines. -/
def tail_lines (file : Option (List Nat)) (max_bytes : Nat) : List String :=
  match file with
  | none => []
  | some bytes =>
    pySplitlines (utf8DecodeIgnore (bytes.drop (bytes.length - max_bytes)))

/-- `tail_lines` from `ai_toolkit_wait_page.py`.  That module never imports
`os`, so on every file that can be opened the body raises
`NameError: name 'os' is not defined` at `handle.seek(0, os.SEEK_END)`;
only `OSError` is caught, so the exception propagates to the caller.  A
failed open is still caught and yields `[]`. -/
def aitk_tail_lines (file : Option (List Nat)) (max_bytes : Nat) :
    Except String (List String) :=
  match file with
  | none => Except.ok []
  | some _ => Except.error "NameError: name 'os' is not defined"

/-- C3: the ComfyUI tail reader returns `[]` on an unopenable file, is
total (lossy decode) on readable ones and reads only the trailing
`max_bytes` bytes; but the ai-toolkit tail reader raises `NameError` to its
caller on every readable file (`os` is used but never imported there), so
the claim's "never raises, in both source files" fails — only a failed
`open` is handled. -/
theorem tail_lines_contract :
    (∀ max_bytes, tail_lines none max_bytes = []) ∧
    (∀ (bytes : List Nat) (max_bytes : Nat),
      tail_lines (some bytes) max_bytes =
        tail_lines (some (bytes.drop (bytes.length - max_bytes))) max_bytes) ∧
    (∀ max_bytes, aitk_tail_lines none max_bytes = Except.ok []) ∧
    aitk_tail_lines (some [120]) 120000 =
      Except.error "NameError: name 'os' is not defined" := by
  refine ⟨fun _ => rfl, ?_, fun _ => rfl, rfl⟩
  intro bytes max_bytes
  simp only [tail_lines]
  have h : (bytes.drop (bytes.length - max_bytes)).length - max_bytes = 0 := by
    rw [List.length_drop]
    omega
  rw [h, List.drop_zero]
